import Mathlib

/-!
Verification development for the diff-ai risk-scoring pipeline.

The Python modules `diff_ai/scoring_backend.py`, `diff_ai/diff_parser.py`,
`diff_ai/scoring.py` and `diff_ai/rules/__init__.py` are shallowly embedded:
pure functions become Lean functions, Python `float` arithmetic is modelled
exactly over `ℚ` (with `math.exp` / the final transform over `ℝ`),
Python `dict`s become insertion-ordered association lists, and code that can
raise becomes `Option`/`Except`.
-/

unseal Rat.add Rat.sub Rat.mul Rat.inv Rat.ofScientific

namespace DiffAI

/-- Association-list lookup, first binding wins (models a Python dict lookup;
dicts are represented as insertion-ordered key/value lists). -/
def alookup {α : Type} : List (String × α) → String → Option α
  | [], _ => none
  | (k', v) :: rest, k => if k' = k then some v else alookup rest k

/-- Models a Python dict update `d[k] += v` on a key that is present:
the first binding of `k` is bumped by `v`; absent keys leave the list
unchanged (the Python code only bumps keys it has initialized). -/
def abump {α : Type} [Add α] : List (String × α) → String → α → List (String × α)
  | [], _, _ => []
  | (k', v') :: rest, k, v =>
    if k' = k then (k', v' + v) :: rest else (k', v') :: abump rest k v

/-- Python `round()` on an exact rational: round half to even. -/
def pyRound (q : ℚ) : ℤ :=
  if q - ⌊q⌋ < 1/2 then ⌊q⌋
  else if 1/2 < q - ⌊q⌋ then ⌊q⌋ + 1
  else if ⌊q⌋ % 2 = 0 then ⌊q⌋ else ⌊q⌋ + 1

/-- Lexicographic strict comparison of character lists by code point
(Python `str` comparison). -/
def charsLt : List Char → List Char → Bool
  | [], [] => false
  | [], _ :: _ => true
  | _ :: _, [] => false
  | a :: as, b :: bs => if a < b then true else if b < a then false else charsLt as bs

/-- One step of a stable insertion into a descending-sorted list: `x` is
placed before the first element strictly below it, hence after any earlier
element with an equal key. -/
def insertStable {α : Type} (lt : α → α → Bool) (x : α) : List α → List α
  | [] => [x]
  | y :: ys => if lt y x then x :: y :: ys else y :: insertStable lt x ys

/-- Stable descending sort, modelling Python `list.sort(key=..., reverse=True)`
(equal keys keep their original relative order): elements are inserted
left to right, each after all earlier elements not strictly below it. -/
def sortDescBy {α : Type} (lt : α → α → Bool) (l : List α) : List α :=
  l.foldl (fun acc x => insertStable lt x acc) []

/-- Python `round()` on a real value: round half to even. -/
noncomputable def pyRoundR (x : ℝ) : ℤ :=
  if x - ⌊x⌋ < 1/2 then ⌊x⌋
  else if 1/2 < x - ⌊x⌋ then ⌊x⌋ + 1
  else if ⌊x⌋ % 2 = 0 then ⌊x⌋ else ⌊x⌋ + 1

/-- Python `str.strip()` (whitespace trim on both ends). -/
def pyStrip (s : String) : String :=
  String.mk (((s.data.dropWhile Char.isWhitespace).reverse.dropWhile
    Char.isWhitespace).reverse)

/-- Python `str.lower()` (ASCII case folding suffices for the category names). -/
def pyLower (s : String) : String :=
  String.mk (s.data.map Char.toLower)

namespace Backend

/-- `scoring_backend.RuleHit`: normalized signal emitted by rule evaluation.
`scope` is one of "global" / "file" / "hunk" (a `Literal` in the source). -/
structure RuleHit where
  id : String
  category : String
  points : ℤ
  scope : String
  file_path : Option String := none
  hunk_id : Option ℤ := none
  message : String := ""
  evidence : Option String := none
deriving DecidableEq

/-- `DEFAULT_CATEGORY_CAPS` from `scoring_backend.py`. -/
def DEFAULT_CATEGORY_CAPS : List (String × ℤ) :=
  [("logic", 30), ("security", 35), ("integration", 35), ("test_adequacy", 25),
   ("style", 15), ("performance", 25), ("unknown", 20)]

/-- `DEFAULT_CATEGORY_WEIGHTS` from `scoring_backend.py` (float literals are
modelled by the exact decimals they denote in the source text). -/
def DEFAULT_CATEGORY_WEIGHTS : List (String × ℚ) :=
  [("logic", 1.2), ("security", 1.4), ("integration", 1.15),
   ("test_adequacy", 1.2), ("style", 0.65), ("performance", 1.0),
   ("unknown", 0.85)]

/-- `DEFAULT_RULE_CAPS` from `scoring_backend.py`. -/
def DEFAULT_RULE_CAPS : List (String × ℚ) := [("magnitude", 20)]

/-- `CATEGORY_ALIASES` from `scoring_backend.py`. -/
def CATEGORY_ALIASES : List (String × String) :=
  [("quality", "style"), ("profile", "integration")]

/-- `DEFAULT_SCALE` from `scoring_backend.py`. -/
def DEFAULT_SCALE : ℚ := 36

/-- The parameter set of `score_rule_hits` (`caps`, `weights`, `rule_caps`,
`scale`, `top_n` keyword arguments, with their defaults). -/
structure ScoreConfig where
  caps : List (String × ℤ) := DEFAULT_CATEGORY_CAPS
  weights : List (String × ℚ) := DEFAULT_CATEGORY_WEIGHTS
  rule_caps : List (String × ℚ) := DEFAULT_RULE_CAPS
  scale : ℚ := DEFAULT_SCALE
  top_n : ℤ := 5
deriving DecidableEq

/-- The default keyword arguments of `score_rule_hits`. -/
def defaultConfig : ScoreConfig := {}

/-- `active_caps` with the "unknown" fallback inserted (lines 95, 98-99;
a fresh dict key is appended at the end in Python insertion order). -/
def active_caps (cfg : ScoreConfig) : List (String × ℤ) :=
  if (alookup cfg.caps "unknown").isSome then cfg.caps
  else cfg.caps ++ [("unknown", 20)]

/-- `active_weights` with the "unknown" fallback inserted (lines 96, 100-101). -/
def active_weights (cfg : ScoreConfig) : List (String × ℚ) :=
  if (alookup cfg.weights "unknown").isSome then cfg.weights
  else cfg.weights ++ [("unknown", 0.85)]

/-- `ordered_categories = list(active_caps.keys())` (line 103). -/
def ordered_categories (cfg : ScoreConfig) : List String :=
  (active_caps cfg).map Prod.fst

/-- `normalize_category` from `scoring_backend.py` (lines 153-160);
`categories` is the caps dict whose keys are the allowed categories. -/
def normalize_category (categories : List (String × ℤ)) (category : String) : String :=
  let normalized := if category = "" then "" else pyLower (pyStrip category)
  let normalized := (alookup CATEGORY_ALIASES normalized).getD normalized
  if (alookup categories normalized).isSome then normalized else "unknown"

/-- `active_weights.get(category, active_weights["unknown"])` as used on
lines 130 and 176; "unknown" is always present after `active_weights`,
so the final `getD 0` fallback is unreachable. -/
def weightOf (cfg : ScoreConfig) (category : String) : ℚ :=
  match alookup (active_weights cfg) category with
  | some w => w
  | none => (alookup (active_weights cfg) "unknown").getD 0

/-- `_rule_scale_factor` from `scoring_backend.py` (lines 232-239). -/
def _rule_scale_factor (points_total : ℤ) (cap : Option ℚ) : ℚ :=
  match cap with
  | none => 1
  | some c =>
    if c ≤ 0 ∨ points_total = 0 then 1
    else if (|points_total| : ℚ) ≤ c then 1
    else c / (|points_total| : ℚ)

/-- The per-rule points total `sum(entry.points for _, entry in entries)`
computed by `_adjusted_points_by_hit` for one rule id (line 225). -/
def rule_points_total (hits : List RuleHit) (rule_id : String) : ℤ :=
  ((hits.filter (fun h => h.id == rule_id)).map RuleHit.points).sum

/-- `_adjusted_points_by_hit` (lines 210-229). The source returns a dict
keyed by hit index whose entry for index `i` is
`hits[i].points * factor(rule of hits[i])`; it is represented positionally:
entry `i` of the result is the adjusted points of `hits[i]`. -/
def _adjusted_points_by_hit (rule_caps : List (String × ℚ))
    (hits : List RuleHit) : List ℚ :=
  hits.map (fun h =>
    (h.points : ℚ) *
      _rule_scale_factor (rule_points_total hits h.id) (alookup rule_caps h.id))

/-- `raw_points_total` accumulated over the hits (lines 105, 111). -/
def raw_points_total (hits : List RuleHit) : ℤ :=
  (hits.map RuleHit.points).sum

/-- `raw_points_by_category`: initialized to 0 for every ordered category
(line 104) and bumped per hit with the hit's normalized category (line 112). -/
def raw_points_by_category_fold (cfg : ScoreConfig) (hits : List RuleHit) :
    List (String × ℤ) :=
  hits.foldl
    (fun acc h => abump acc (normalize_category (active_caps cfg) h.category) h.points)
    ((ordered_categories cfg).map (fun c => (c, 0)))

/-- `scored_points_by_category`: initialized to 0 (line 119) and bumped per
hit with that hit's adjusted points (lines 120-121). -/
def scored_points_by_category_fold (cfg : ScoreConfig) (hits : List RuleHit) :
    List (String × ℚ) :=
  (hits.zip (_adjusted_points_by_hit cfg.rule_caps hits)).foldl
    (fun acc p =>
      abump acc (normalize_category (active_caps cfg) p.1.category) p.2)
    ((ordered_categories cfg).map (fun c => (c, 0)))

/-- `capped_points_by_category` (lines 123-126): per-category minimum of the
scored total and the configured cap, in ordered-category order. -/
def capped_points_by_category (cfg : ScoreConfig) (hits : List RuleHit) :
    List (String × ℚ) :=
  (ordered_categories cfg).map (fun c =>
    (c, min ((alookup (scored_points_by_category_fold cfg hits) c).getD 0)
            (((alookup (active_caps cfg) c).getD 0 : ℤ) : ℚ)))

/-- `overall_raw` (lines 128-131): weighted sum of the capped totals,
accumulated over the ordered categories. -/
def overall_raw (cfg : ScoreConfig) (hits : List RuleHit) : ℚ :=
  (ordered_categories cfg).foldl
    (fun acc c =>
      acc + weightOf cfg c *
        ((alookup (capped_points_by_category cfg hits) c).getD 0)) 0

/-- The diminishing-returns transform of line 133:
`100.0 * (1.0 - math.exp(-overall_raw / scale))` as a real function of the
raw weighted total. -/
noncomputable def transform (scale : ℝ) (raw : ℝ) : ℝ :=
  100 * (1 - Real.exp (-(raw / scale)))

/-- `transformed_score` of the breakdown (line 133). -/
noncomputable def transformed_score (cfg : ScoreConfig) (hits : List RuleHit) : ℝ :=
  transform (cfg.scale : ℝ) ((overall_raw cfg hits : ℚ) : ℝ)

/-- `_clamp` from `scoring_backend.py` (lines 206-207). -/
noncomputable def _clamp (value lower upper : ℝ) : ℝ :=
  max lower (min upper value)

/-- `final_score = int(round(_clamp(transformed_score, 0, 100)))` (line 134). -/
noncomputable def final_score_0_100 (cfg : ScoreConfig) (hits : List RuleHit) : ℤ :=
  pyRoundR (_clamp (transformed_score cfg hits) 0 100)

/-- The ranked entry tuples `(contribution, adjusted_points, hit, category)`
built by `_build_top_reasons` (lines 173-177), in hit order. -/
def ranked_entries (cfg : ScoreConfig) (hits : List RuleHit) :
    List (ℚ × ℚ × RuleHit × String) :=
  (hits.zip (_adjusted_points_by_hit cfg.rule_caps hits)).map (fun p =>
    let category := normalize_category (active_caps cfg) p.1.category
    (weightOf cfg category * p.2, p.2, p.1, category))

/-- The sort key of `_build_top_reasons` (lines 181-190): contribution,
absolute adjusted points, rule id, file path (or ""), hunk id (or -1). -/
structure RankKey where
  contribution : ℚ
  absAdj : ℚ
  rid : List Char
  fpath : List Char
  hid : ℤ
deriving DecidableEq

/-- The key of one ranked entry. -/
def rank_key (e : ℚ × ℚ × RuleHit × String) : RankKey :=
  ⟨e.1, |e.2.1|, e.2.2.1.id.data, ((e.2.2.1.file_path).getD "").data,
    (e.2.2.1.hunk_id).getD (-1)⟩

/-- One component of a lexicographic comparison: strictly below wins,
strictly above loses, ties defer to the remaining components. -/
def lexComp (ltA gtA rest : Bool) : Bool :=
  if ltA then true else if gtA then false else rest

/-- Strict lexicographic comparison of sort keys (the componentwise tuple
comparison performed by Python on the key tuples). -/
def rankLt (x y : RankKey) : Bool :=
  lexComp (decide (x.contribution < y.contribution))
    (decide (y.contribution < x.contribution))
    (lexComp (decide (x.absAdj < y.absAdj)) (decide (y.absAdj < x.absAdj))
      (lexComp (charsLt x.rid y.rid) (charsLt y.rid x.rid)
        (lexComp (charsLt x.fpath y.fpath) (charsLt y.fpath x.fpath)
          (decide (x.hid < y.hid)))))

/-- Key comparison on ranked entries. -/
def entry_lt (a b : ℚ × ℚ × RuleHit × String) : Bool :=
  rankLt (rank_key a) (rank_key b)

/-- The display text of one ranked entry (lines 193-202). -/
def reason_string (e : ℚ × ℚ × RuleHit × String) : String :=
  let hit := e.2.2.1
  let scope_bits : List String :=
    (match hit.file_path with
     | some p => if p = "" then [] else [p]
     | none => []) ++
    (match hit.hunk_id with
     | some i => ["hunk " ++ toString i]
     | none => [])
  let scope_text :=
    if scope_bits.isEmpty then ""
    else " (" ++ String.intercalate ", " scope_bits ++ ")"
  let rounded := pyRound e.2.1
  let signed := if 0 ≤ rounded then "+" ++ toString rounded else toString rounded
  "[" ++ hit.id ++ "] " ++ signed ++ " [" ++ e.2.2.2 ++ "] " ++
    hit.message ++ scope_text

/-- `_build_top_reasons` (lines 163-203). -/
def _build_top_reasons (cfg : ScoreConfig) (hits : List RuleHit) : List String :=
  if cfg.top_n ≤ 0 then []
  else
    let ranked := ranked_entries cfg hits
    let positives := ranked.filter (fun e => decide (0 < e.1))
    let source := if positives.isEmpty then ranked else positives
    ((sortDescBy entry_lt source).take cfg.top_n.toNat).map reason_string

/-- `scoring_backend.ScoreBreakdown`. -/
structure ScoreBreakdown where
  raw_points_total : ℤ
  raw_points_by_category : List (String × ℤ)
  capped_points_by_category : List (String × ℚ)
  transformed_score : ℝ
  final_score_0_100 : ℤ
  reasons_topN : List String

/-- The breakdown assembled by `score_rule_hits` once past the scale guard. -/
noncomputable def score_breakdown (cfg : ScoreConfig) (hits : List RuleHit) :
    ScoreBreakdown where
  raw_points_total := raw_points_total hits
  raw_points_by_category := raw_points_by_category_fold cfg hits
  capped_points_by_category := capped_points_by_category cfg hits
  transformed_score := transformed_score cfg hits
  final_score_0_100 := final_score_0_100 cfg hits
  reasons_topN := _build_top_reasons cfg hits

/-- `score_rule_hits` (lines 82-150); `none` models the
`ValueError("scale must be positive...")` raised on a non-positive scale. -/
noncomputable def score_rule_hits (cfg : ScoreConfig) (hits : List RuleHit) :
    Option ScoreBreakdown :=
  if cfg.scale ≤ 0 then none else some (score_breakdown cfg hits)

end Backend

namespace Parser

/-- Python `s.startswith(p)` (code-point prefix test). -/
def pyStartsWith (s p : String) : Bool :=
  p.data.isPrefixOf s.data

/-- Python slicing `s[n:]`. -/
def strDropStr (s : String) (n : ℕ) : String :=
  String.mk (s.data.drop n)

/-- `diff_parser.Line`: a single line within a diff hunk.
`kind` is one of "context" / "add" / "delete" / "meta" (a `Literal`). -/
structure Line where
  kind : String
  content : String
  old_lineno : Option ℕ
  new_lineno : Option ℕ
deriving DecidableEq

/-- `diff_parser.Hunk` (the `section` field is `sectionText` here since
`section` is a Lean keyword). Line numbers in a unified diff are the
regex-captured digits, hence naturals. -/
structure Hunk where
  header : String
  old_start : ℕ
  old_count : ℕ
  new_start : ℕ
  new_count : ℕ
  sectionText : String
  lines : List Line := []
deriving DecidableEq

/-- `diff_parser.HunkHeader`: parsed hunk header values. -/
structure HunkHeader where
  old_start : ℕ
  old_count : ℕ
  new_start : ℕ
  new_count : ℕ
  sectionText : String
deriving DecidableEq

/-- `diff_parser.FileDiff`: a parsed file-level diff. -/
structure FileDiff where
  old_path : Option String := none
  new_path : Option String := none
  hunks : List Hunk := []
  metadata : List String := []
deriving DecidableEq

/-- `FileDiff.path` property: best-effort canonical path (Python truthiness:
an empty-string path is falsy). -/
def isRealPath : Option String → Bool
  | none => false
  | some p => ¬(p = "") ∧ ¬(p = "/dev/null")

/-- `FileDiff.path` (diff_parser.py lines 58-65). -/
def FileDiff.path (fd : FileDiff) : String :=
  if isRealPath fd.new_path then fd.new_path.getD "<unknown>"
  else if isRealPath fd.old_path then fd.old_path.getD "<unknown>"
  else "<unknown>"

/-- `_strip_ab_prefix` (lines 194-197). -/
def _strip_ab_prefix (p : String) : String :=
  if pyStartsWith p "a/" || pyStartsWith p "b/" then strDropStr p 2 else p

/-- `_parse_path` (lines 189-191): strip, cut at the first tab, strip `a/`
or `b/`. -/
def _parse_path (value : String) : String :=
  _strip_ab_prefix (String.mk ((pyStrip value).data.takeWhile (fun c => c ≠ '\t')))

/-- Python `line.split(maxsplit=n)`: split on whitespace runs performing at
most `n` splits; an all-whitespace remainder yields no final part. -/
def pySplitMaxWs : List Char → ℕ → List (List Char)
  | cs, 0 =>
    let rest := cs.dropWhile Char.isWhitespace
    if rest.isEmpty then [] else [rest]
  | cs, m + 1 =>
    let rest := cs.dropWhile Char.isWhitespace
    if rest.isEmpty then []
    else rest.takeWhile (fun c => ¬ c.isWhitespace) ::
      pySplitMaxWs (rest.dropWhile (fun c => ¬ c.isWhitespace)) m

/-- `_start_file_from_diff_header` (lines 180-186). -/
def _start_file_from_diff_header (line : String) : FileDiff :=
  let parts := (pySplitMaxWs line.data 3).map String.mk
  { old_path := (parts.get? 2).map _strip_ab_prefix,
    new_path := (parts.get? 3).map _strip_ab_prefix,
    hunks := [], metadata := [line] }

/-- Digit-string value. -/
def digitsToNat (ds : List Char) : ℕ :=
  ds.foldl (fun n c => 10 * n + (c.toNat - 48)) 0

/-- One `\d+` group: at least one digit, consumed greedily. -/
def parseDigits (cs : List Char) : Option (ℕ × List Char) :=
  let ds := cs.takeWhile Char.isDigit
  if ds.isEmpty then none
  else some (digitsToNat ds, cs.dropWhile Char.isDigit)

/-- Consume an exact literal. -/
def dropLit : List Char → List Char → Option (List Char)
  | [], rest => some rest
  | _ :: _, [] => none
  | a :: ps, b :: rest => if a = b then dropLit ps rest else none

/-- An optional `(?:,(\d+))?` count group followed by a mandatory space:
taken exactly when the next character is a comma (the regex cannot backtrack
into a different parse because `,` can never satisfy the following ` `). -/
def parseOptCount (cs : List Char) : Option (ℕ × List Char) :=
  match cs with
  | ',' :: rest => parseDigits rest
  | _ => some (1, cs)

/-- `_parse_hunk_header` (lines 200-215), deciding the anchored regex
`^@@ -(\d+)(?:,(\d+))? \+(\d+)(?:,(\d+))? @@(.*)$`; `none` models the
raised `ValueError`. Missing counts default to 1; the trailing section
text is stripped. -/
def _parse_hunk_header (header : String) : Option HunkHeader :=
  match dropLit "@@ -".data header.data with
  | none => none
  | some r =>
    match parseDigits r with
    | none => none
    | some (old_start, r) =>
      match parseOptCount r with
      | none => none
      | some (old_count, r) =>
        match dropLit " +".data r with
        | none => none
        | some r =>
          match parseDigits r with
          | none => none
          | some (new_start, r) =>
            match parseOptCount r with
            | none => none
            | some (new_count, r) =>
              match dropLit " @@".data r with
              | none => none
              | some r =>
                some ⟨old_start, old_count, new_start, new_count,
                  pyStrip (String.mk r)⟩

/-- `_inc` (lines 218-221) on the line-number cursors. -/
def _inc (value : Option ℕ) : Option ℕ :=
  value.map (· + 1)

/-- The parser's mutable state: emitted files, current file, current hunk
and the two line-number cursors. -/
structure ParserSt where
  files : List FileDiff := []
  current_file : Option FileDiff := none
  current_hunk : Option Hunk := none
  old_lineno : Option ℕ := none
  new_lineno : Option ℕ := none
deriving DecidableEq

/-- `flush_hunk` (lines 84-88). -/
def flushHunk (st : ParserSt) : ParserSt :=
  match st.current_file, st.current_hunk with
  | some f, some h =>
    { st with current_file := some { f with hunks := f.hunks ++ [h] },
              current_hunk := none }
  | _, _ => { st with current_hunk := none }

/-- `flush_file` (lines 90-95). -/
def flushFile (st : ParserSt) : ParserSt :=
  match (flushHunk st).current_file with
  | some f =>
    { flushHunk st with files := (flushHunk st).files ++ [f], current_file := none }
  | none => flushHunk st

/-- The body of the per-line loop of `parse_unified_diff` (lines 97-174);
`Except.error` models the `ValueError` escaping from `_parse_hunk_header`. -/
def step (st : ParserSt) (raw_line : String) : Except String ParserSt :=
  if pyStartsWith raw_line "diff --git " then
    let st := flushFile st
    .ok { st with current_file := some (_start_file_from_diff_header raw_line) }
  else if pyStartsWith raw_line "--- " then
    let f := st.current_file.getD {}
    let f := { f with old_path := some (_parse_path (strDropStr raw_line 4)) }
    let f := if st.current_hunk.isNone
      then { f with metadata := f.metadata ++ [raw_line] } else f
    .ok { st with current_file := some f }
  else if pyStartsWith raw_line "+++ " then
    let f := st.current_file.getD {}
    let f := { f with new_path := some (_parse_path (strDropStr raw_line 4)) }
    let f := if st.current_hunk.isNone
      then { f with metadata := f.metadata ++ [raw_line] } else f
    .ok { st with current_file := some f }
  else if pyStartsWith raw_line "@@ " then
    let st := if st.current_file.isNone
      then { st with current_file := some {} } else st
    let st := flushHunk st
    match _parse_hunk_header raw_line with
    | none => .error ("Invalid hunk header: " ++ raw_line)
    | some p =>
      .ok { st with
        current_hunk := some ⟨raw_line, p.old_start, p.old_count,
          p.new_start, p.new_count, p.sectionText, []⟩,
        old_lineno := some p.old_start,
        new_lineno := some p.new_start }
  else
    match st.current_hunk with
    | some h =>
      if pyStartsWith raw_line " " then
        .ok { st with
          current_hunk := some { h with lines := h.lines ++
            [⟨"context", strDropStr raw_line 1, st.old_lineno, st.new_lineno⟩] },
          old_lineno := _inc st.old_lineno,
          new_lineno := _inc st.new_lineno }
      else if pyStartsWith raw_line "+" then
        .ok { st with
          current_hunk := some { h with lines := h.lines ++
            [⟨"add", strDropStr raw_line 1, none, st.new_lineno⟩] },
          new_lineno := _inc st.new_lineno }
      else if pyStartsWith raw_line "-" then
        .ok { st with
          current_hunk := some { h with lines := h.lines ++
            [⟨"delete", strDropStr raw_line 1, st.old_lineno, none⟩] },
          old_lineno := _inc st.old_lineno }
      else if pyStartsWith raw_line "\\ " then
        .ok { st with current_hunk := some { h with lines := h.lines ++
          [⟨"meta", strDropStr raw_line 2, none, none⟩] } }
      else
        .ok { st with current_hunk := some { h with lines := h.lines ++
          [⟨"meta", raw_line, none, none⟩] } }
    | none =>
      match st.current_file with
      | some f =>
        let f := { f with metadata := f.metadata ++ [raw_line] }
        .ok { st with current_file := some f }
      | none => .ok st

/-- The loop of `parse_unified_diff` over the remaining lines. -/
def runLines (st : ParserSt) : List String → Except String ParserSt
  | [] => .ok st
  | l :: ls =>
    match step st l with
    | .error e => .error e
    | .ok st' => runLines st' ls

/-- `parse_unified_diff` (lines 76-177) over the result of
`diff_text.splitlines()`; a raised `ValueError` is `Except.error`, so a
failed parse returns no partial file list. -/
def parse_unified_diff (lines : List String) : Except String (List FileDiff) :=
  match runLines {} lines with
  | .error e => .error e
  | .ok st => .ok (flushFile st).files

/-- The old-side line numbers assigned to context and delete lines, in
encounter order. -/
def oldAssigned (ls : List Line) : List (Option ℕ) :=
  (ls.filter (fun l => l.kind == "context" || l.kind == "delete")).map Line.old_lineno

/-- The new-side line numbers assigned to context and add lines, in
encounter order. -/
def newAssigned (ls : List Line) : List (Option ℕ) :=
  (ls.filter (fun l => l.kind == "context" || l.kind == "add")).map Line.new_lineno

/-- How many lines consumed the old-side cursor. -/
def oldCount (ls : List Line) : ℕ :=
  (ls.filter (fun l => l.kind == "context" || l.kind == "delete")).length

/-- How many lines consumed the new-side cursor. -/
def newCount (ls : List Line) : ℕ :=
  (ls.filter (fun l => l.kind == "context" || l.kind == "add")).length

/-- The sequence `s, s+1, ..., s+n-1` of assigned line numbers. -/
def consecSome (s n : ℕ) : List (Option ℕ) :=
  (List.range n).map (fun i => some (s + i))

/-- The line-number bookkeeping a finished hunk must satisfy: old numbers of
context/delete lines count up from `old_start`, new numbers of context/add
lines count up from `new_start`, both in encounter order. -/
def hunkNumsOk (h : Hunk) : Prop :=
  oldAssigned h.lines = consecSome h.old_start (oldCount h.lines) ∧
  newAssigned h.lines = consecSome h.new_start (newCount h.lines)

/-- The parser-state invariant: all finished hunks satisfy `hunkNumsOk`, and
the cursors of an open hunk sit exactly past the numbers already assigned. -/
def stInv (st : ParserSt) : Prop :=
  (∀ fd ∈ st.files, ∀ h ∈ fd.hunks, hunkNumsOk h) ∧
  (∀ fd, st.current_file = some fd → ∀ h ∈ fd.hunks, hunkNumsOk h) ∧
  (∀ h, st.current_hunk = some h → hunkNumsOk h ∧
    st.old_lineno = some (h.old_start + oldCount h.lines) ∧
    st.new_lineno = some (h.new_start + newCount h.lines))

end Parser

namespace Rules

/-- `rules/base.Finding`: a single risk finding emitted by a rule. -/
structure Finding where
  rule_id : String
  points : ℤ
  message : String
  evidence : String
  scope : String
  suggestion : String
deriving DecidableEq

/-- `_scale_points` from `rules/__init__.py` (lines 367-371): weight-scale
and round, but never round a non-zero finding to exactly zero. -/
def _scale_points (points : ℤ) (weight : ℚ) : ℤ :=
  let scaled := pyRound ((points : ℚ) * weight)
  if points ≠ 0 ∧ scaled = 0 then (if 0 < points then 1 else -1) else scaled

/-- The float tolerance `1e-9` used by `_WeightedRule.evaluate` (line 103). -/
def weightTol : ℚ := 1 / 1000000000

/-- `_WeightedRule.evaluate` (lines 101-119), parametrized by the findings
the wrapped rule returned: at weight (effectively) 1 the findings pass
through unchanged, otherwise each finding's points are rescaled. -/
def weightedRuleEvaluate (weight : ℚ) (findings : List Finding) : List Finding :=
  if |weight - 1| ≤ weightTol then findings
  else findings.map (fun f => { f with points := _scale_points f.points weight })

end Rules

namespace Scoring

open Parser Rules Backend

/-- `scoring.HunkScore`. -/
structure HunkScore where
  header : String
  score : ℤ := 0
  findings : List Finding := []
deriving DecidableEq

/-- `scoring.FileScore`. -/
structure FileScore where
  path : String
  score : ℤ := 0
  hunks : List HunkScore := []
  findings : List Finding := []
deriving DecidableEq

/-- `scoring.ScoreResult` (after `__post_init__`, which is the identity here
because `score_files` always constructs it with
`overall_score = final_score_0_100`). -/
structure ScoreResult where
  overall_score : ℤ
  files : List FileScore
  findings : List Finding
  raw_points_total : ℤ
  raw_points_by_category : List (String × ℤ)
  capped_points_by_category : List (String × ℚ)
  transformed_score : ℝ
  final_score_0_100 : ℤ
  reasons_topN : List String

/-- `scoring._clamp` (lines 184-185; integer-valued, bounds 0 and 100). -/
def _clamp (value : ℤ) : ℤ :=
  max 0 (min 100 value)

/-- A minimal model of Python `int(text)` for the index in a scope string:
optional surrounding whitespace, optional sign, then digits (Python's
underscore digit grouping is not modelled; the scopes the code builds
never use it). `none` models the raised `ValueError`. -/
def pyToInt (s : String) : Option ℤ :=
  match (pyStrip s).data with
  | '-' :: ds =>
    if ds.isEmpty || !ds.all Char.isDigit then none
    else some (-(digitsToNat ds : ℤ))
  | '+' :: ds =>
    if ds.isEmpty || !ds.all Char.isDigit then none
    else some (digitsToNat ds : ℤ)
  | ds =>
    if ds.isEmpty || !ds.all Char.isDigit then none
    else some (digitsToNat ds : ℤ)

/-- Python `remainder.rpartition(":")`: split at the last colon; the middle
component is empty exactly when there is no colon. -/
def pyRPartitionColon (s : String) : String × String × String :=
  let rev := s.data.reverse
  if rev.contains ':' then
    let afterRev := rev.takeWhile (fun c => c ≠ ':')
    let beforeRev := (rev.dropWhile (fun c => c ≠ ':')).drop 1
    (String.mk beforeRev.reverse, ":", String.mk afterRev.reverse)
  else ("", "", s)

/-- `_parse_scope` (lines 134-148): scope kind ("overall" / "file" / "hunk"),
path, and optional hunk index. -/
def _parse_scope (scope : String) : String × String × Option ℤ :=
  if scope = "overall" then ("overall", "", none)
  else if pyStartsWith scope "file:" then ("file", strDropStr scope 5, none)
  else if pyStartsWith scope "hunk:" then
    let remainder := strDropStr scope 5
    let (path, sep, index_text) := pyRPartitionColon remainder
    if sep = "" then ("file", remainder, none)
    else match pyToInt index_text with
      | some i => ("hunk", path, some i)
      | none => ("file", if path ≠ "" then path else remainder, none)
  else ("overall", "", none)

/-- `_finding_to_rule_hit` (lines 151-169); `rule_categories` is the
association list produced by `_rule_categories`. -/
def _finding_to_rule_hit (rule_categories : List (String × String))
    (finding : Finding) : RuleHit :=
  let parsed := _parse_scope finding.scope
  let normalized_scope :=
    if parsed.1 = "hunk" then "hunk"
    else if parsed.1 = "file" then "file"
    else "global"
  { id := finding.rule_id,
    category := (alookup rule_categories finding.rule_id).getD "unknown",
    points := finding.points,
    scope := normalized_scope,
    file_path := if parsed.2.1 = "" then none else some parsed.2.1,
    hunk_id := parsed.2.2,
    message := finding.message,
    evidence := some finding.evidence }

/-- `_init_file_scores` (lines 122-131). -/
def _init_file_scores (files : List FileDiff) : List FileScore :=
  files.map (fun fd =>
    { path := fd.path,
      hunks := fd.hunks.map (fun h => { header := h.header }) })

/-- The index the dict `file_map = {fs.path: fs for fs in scored_files}`
resolves a path to: the last file score with that path (later entries of a
Python dict comprehension overwrite earlier ones). -/
def lastIdxWithPath (sfs : List FileScore) (p : String) : Option ℕ :=
  (List.range sfs.length).foldl
    (fun acc i => if ((sfs.get? i).map FileScore.path) = some p then some i else acc)
    none

/-- In-place update of one list element (models mutating the object that
both the list and `file_map` reference). -/
def listModify {α : Type} : List α → ℕ → (α → α) → List α
  | [], _, _ => []
  | a :: l, 0, f => f a :: l
  | a :: l, n + 1, f => a :: listModify l n f

/-- The body of the attribution loop of `score_files` (lines 83-102) for a
single finding. -/
def attributeFinding (sfs : List FileScore) (finding : Finding) : List FileScore :=
  let parsed := _parse_scope finding.scope
  if parsed.1 = "overall" then sfs
  else
    match lastIdxWithPath sfs parsed.2.1 with
    | none => sfs
    | some i =>
      listModify sfs i (fun fs =>
        let fs := { fs with score := fs.score + finding.points,
                            findings := fs.findings ++ [finding] }
        match parsed.2.2 with
        | some hi =>
          if parsed.1 = "hunk" ∧ 0 ≤ hi ∧ hi < (fs.hunks.length : ℤ) then
            { fs with hunks := listModify fs.hunks hi.toNat (fun hs =>
                { hs with score := hs.score + finding.points,
                          findings := hs.findings ++ [finding] }) }
          else fs
        | none => fs)

/-- The final clamping loop of `score_files` (lines 104-107). -/
def clampFileScore (fs : FileScore) : FileScore :=
  { fs with score := _clamp fs.score,
            hunks := fs.hunks.map (fun hs => { hs with score := _clamp hs.score }) }

/-- `score_files` (lines 61-119). Rule evaluation (the `rule.evaluate` loop,
lines 68-71) is supplied as the already-concatenated findings list, and
category resolution (`_rule_categories`) as an association list, since the
rules themselves are parameters of the source function as well. -/
noncomputable def score_files (files : List FileDiff)
    (all_findings : List Finding)
    (rule_categories : List (String × String)) : ScoreResult :=
  let rule_hits := all_findings.map (_finding_to_rule_hit rule_categories)
  let breakdown := score_breakdown Backend.defaultConfig rule_hits
  let scored_files := _init_file_scores files
  let scored_files := all_findings.foldl attributeFinding scored_files
  let scored_files := scored_files.map clampFileScore
  { overall_score := breakdown.final_score_0_100,
    files := scored_files,
    findings := all_findings,
    raw_points_total := breakdown.raw_points_total,
    raw_points_by_category := breakdown.raw_points_by_category,
    capped_points_by_category := breakdown.capped_points_by_category,
    transformed_score := breakdown.transformed_score,
    final_score_0_100 := breakdown.final_score_0_100,
    reasons_topN := breakdown.reasons_topN }

end Scoring

end DiffAI

namespace DiffAI

namespace Backend

/-- A concrete hit that differs from `cxHitB` only in its message text. -/
def cxHitA : RuleHit :=
  { id := "r", category := "logic", points := 5, scope := "global", message := "a" }

/-- A concrete hit that differs from `cxHitA` only in its message text. -/
def cxHitB : RuleHit :=
  { id := "r", category := "logic", points := 5, scope := "global", message := "b" }

/-- A concrete hit with a sort key distinct from `wHitB`. -/
def wHitA : RuleHit :=
  { id := "a", category := "logic", points := 5, scope := "global", message := "m1" }

/-- A concrete hit with a sort key distinct from `wHitA`. -/
def wHitB : RuleHit :=
  { id := "b", category := "security", points := 3, scope := "global", message := "m2" }

end Backend

end DiffAI

namespace DiffAI

-- ### Generic association-list lemmas

theorem alookup_abump {α : Type} [Add α] (l : List (String × α)) (k c : String) (v : α) :
    alookup (abump l k v) c =
      if k = c then (alookup l c).map (fun x => x + v) else alookup l c := by
  induction l with
  | nil => simp [abump, alookup]
  | cons p rest ih =>
    obtain ⟨k', v'⟩ := p
    by_cases hk : k' = k
    · subst hk
      by_cases hc : k' = c
      · subst hc
        simp [abump, alookup]
      · simp [abump, alookup, hc]
    · by_cases hc : k' = c
      · subst hc
        have h1 : ¬ k = k' := fun h => hk h.symm
        simp [abump, alookup, hk, h1]
      · simp [abump, alookup, hk, hc, ih]

theorem alookup_fold_abump {α β : Type} [AddCommMonoid α]
    (f : β → String) (g : β → α) (l : List β) (init : List (String × α)) (c : String) :
    alookup (l.foldl (fun acc x => abump acc (f x) (g x)) init) c
      = (alookup init c).map (fun q => q + ((l.filter (fun x => f x == c)).map g).sum) := by
  induction l generalizing init with
  | nil =>
    cases h : alookup init c <;> simp [h]
  | cons x l ih =>
    rw [List.foldl_cons, ih, alookup_abump]
    by_cases hx : f x = c
    · have hx' : (f x == c) = true := by simpa using hx
      rw [if_pos hx]
      cases h : alookup init c with
      | none => simp
      | some q => simp [List.filter_cons, hx', List.sum_cons, add_assoc]
    · have hx' : (f x == c) = false := by simpa using hx
      simp [hx, hx', List.filter_cons]

theorem alookup_map_key {α : Type} (l : List String) (z : String → α) (c : String) :
    alookup (l.map (fun k => (k, z k))) c = if c ∈ l then some (z c) else none := by
  induction l with
  | nil => simp [alookup]
  | cons a l ih =>
    by_cases ha : a = c
    · subst ha
      simp [alookup]
    · have ha' : ¬ c = a := fun h => ha h.symm
      simp [alookup, ha, ih, ha', List.mem_cons]

theorem foldl_add_eq_sum {l : List String} (f : String → ℚ) (a : ℚ) :
    l.foldl (fun acc c => acc + f c) a = a + (l.map f).sum := by
  induction l generalizing a with
  | nil => simp
  | cons x l ih => simp [ih, add_assoc]

end DiffAI
namespace DiffAI

open Backend

-- C4 helper: the closed-form adjusted sum of one category.
theorem scored_lookup (cfg : ScoreConfig) (hits : List RuleHit) (c : String)
    (hc : c ∈ ordered_categories cfg) :
    alookup (scored_points_by_category_fold cfg hits) c
      = some ((((hits.zip (_adjusted_points_by_hit cfg.rule_caps hits)).filter
          (fun p => normalize_category (active_caps cfg) p.1.category == c)).map
            Prod.snd).sum) := by
  unfold scored_points_by_category_fold
  simp only [alookup_fold_abump, alookup_map_key, if_pos hc]
  simp

-- C4 helper: the raw per-category sum.
theorem raw_lookup (cfg : ScoreConfig) (hits : List RuleHit) (c : String)
    (hc : c ∈ ordered_categories cfg) :
    alookup (raw_points_by_category_fold cfg hits) c
      = some (((hits.filter
          (fun h => normalize_category (active_caps cfg) h.category == c)).map
            RuleHit.points).sum) := by
  unfold raw_points_by_category_fold
  simp only [alookup_fold_abump, alookup_map_key, if_pos hc]
  simp

/-- C4: per-category caps are absolute minima applied before weighting. -/
theorem c4_category_caps (cfg : ScoreConfig) (hits : List RuleHit) (c : String)
    (hc : c ∈ ordered_categories cfg) :
    alookup (raw_points_by_category_fold cfg hits) c
      = some (((hits.filter
          (fun h => normalize_category (active_caps cfg) h.category == c)).map
            RuleHit.points).sum) ∧
    alookup (capped_points_by_category cfg hits) c
      = some (min
          ((((hits.zip (_adjusted_points_by_hit cfg.rule_caps hits)).filter
            (fun p => normalize_category (active_caps cfg) p.1.category == c)).map
              Prod.snd).sum)
          (((alookup (active_caps cfg) c).getD 0 : ℤ) : ℚ)) ∧
    overall_raw cfg hits
      = ((ordered_categories cfg).map (fun c2 =>
          weightOf cfg c2 *
            min ((((hits.zip (_adjusted_points_by_hit cfg.rule_caps hits)).filter
              (fun p => normalize_category (active_caps cfg) p.1.category == c2)).map
                Prod.snd).sum)
              (((alookup (active_caps cfg) c2).getD 0 : ℤ) : ℚ))).sum := by
  refine ⟨raw_lookup cfg hits c hc, ?_, ?_⟩
  · unfold capped_points_by_category
    rw [alookup_map_key _ _ c, if_pos hc, scored_lookup cfg hits c hc]
    simp
  · unfold overall_raw
    rw [foldl_add_eq_sum, zero_add]
    refine congrArg List.sum (List.map_congr_left ?_)
    intro c2 hc2
    unfold capped_points_by_category
    rw [alookup_map_key _ _ c2, if_pos hc2, scored_lookup cfg hits c2 hc2]
    simp

end DiffAI
namespace DiffAI

open Backend

theorem zip_map_self {α β : Type} (g : α → β) (l : List α) :
    l.zip (l.map g) = l.map (fun a => (a, g a)) := by
  induction l with
  | nil => rfl
  | cons a l ih => simp [ih]

theorem map_snd_filter_fst {α β : Type} (F : α → β) (p : α → Bool) (l : List α) :
    ((l.map (fun a => (a, F a))).filter (fun q => p q.1)).map Prod.snd
      = (l.filter p).map F := by
  induction l with
  | nil => rfl
  | cons a l ih =>
    by_cases hp : p a <;> simp [List.filter_cons, hp, ih]

theorem int_cast_sum_map {α : Type} (f : α → ℤ) (l : List α) :
    (((l.map f).sum : ℤ) : ℚ) = (l.map (fun a => ((f a : ℤ) : ℚ))).sum := by
  induction l with
  | nil => simp
  | cons a l ih =>
    rw [List.map_cons, List.map_cons, List.sum_cons, List.sum_cons, Int.cast_add, ih]

/-- Witness for `c4_category_caps`: five +10 "security" hits yield raw 50 and
capped 35 under the default configuration (cap 35). -/
theorem c4_category_caps_witness :
    alookup (raw_points_by_category_fold defaultConfig
        ((List.range 5).map (fun i =>
          { id := "security_" ++ toString i, category := "security", points := 10,
            scope := "global", message := "security hit" : RuleHit}))) "security"
      = some 50 ∧
    alookup (capped_points_by_category defaultConfig
        ((List.range 5).map (fun i =>
          { id := "security_" ++ toString i, category := "security", points := 10,
            scope := "global", message := "security hit" : RuleHit}))) "security"
      = some 35 := by
  have h := c4_category_caps defaultConfig
    ((List.range 5).map (fun i =>
      { id := "security_" ++ toString i, category := "security", points := 10,
        scope := "global", message := "security hit" : RuleHit})) "security" (by decide)
  refine ⟨?_, ?_⟩
  · rw [h.1]; decide
  · rw [h.2.1]; decide

/-- C5: the per-rule pre-cap rescales all of a capped rule's hits by the
uniform factor `cap / |total|` once the absolute total exceeds the cap, so
that the rule's adjusted points sum to exactly `±cap` (`+cap` for a positive
total, `-cap` for a negative one); totals within the cap leave every hit
unchanged. -/
theorem c5_rule_precap (rule_caps : List (String × ℚ)) (hits : List RuleHit)
    (r : String) (cap : ℚ) (hcap : alookup rule_caps r = some cap)
    (hpos : 0 < cap) :
    ((cap < (|rule_points_total hits r| : ℚ)) →
      (∀ p ∈ hits.zip (_adjusted_points_by_hit rule_caps hits),
        p.1.id = r →
          p.2 = (p.1.points : ℚ) * (cap / (|rule_points_total hits r| : ℚ))) ∧
      (((hits.zip (_adjusted_points_by_hit rule_caps hits)).filter
          (fun p => p.1.id == r)).map Prod.snd).sum
        = (if 0 < rule_points_total hits r then cap else -cap)) ∧
    (((|rule_points_total hits r| : ℚ) ≤ cap) →
      ∀ p ∈ hits.zip (_adjusted_points_by_hit rule_caps hits),
        p.1.id = r → p.2 = (p.1.points : ℚ)) := by
  have hzip : hits.zip (_adjusted_points_by_hit rule_caps hits)
      = hits.map (fun h => (h, (h.points : ℚ) *
          _rule_scale_factor (rule_points_total hits h.id) (alookup rule_caps h.id))) := by
    unfold _adjusted_points_by_hit
    exact zip_map_self _ hits
  constructor
  · intro hover
    have hT : rule_points_total hits r ≠ 0 := by
      intro h0
      rw [h0] at hover
      simp at hover
      exact absurd (hover.trans hpos) (lt_irrefl cap)
    have hfac : _rule_scale_factor (rule_points_total hits r) (alookup rule_caps r)
        = cap / (|rule_points_total hits r| : ℚ) := by
      rw [hcap]
      show (if cap ≤ 0 ∨ rule_points_total hits r = 0 then (1:ℚ)
        else if (|rule_points_total hits r| : ℚ) ≤ cap then 1
        else cap / (|rule_points_total hits r| : ℚ)) = _
      rw [if_neg (by rw [not_or]; exact ⟨not_le.mpr hpos, hT⟩),
        if_neg (not_le.mpr hover)]
    constructor
    · intro p hp hid
      rw [hzip] at hp
      obtain ⟨h, _, rfl⟩ := List.mem_map.mp hp
      simp only
      rw [hid, hfac]
    · rw [hzip]
      have heq := map_snd_filter_fst
        (fun h : RuleHit => (h.points : ℚ) *
          _rule_scale_factor (rule_points_total hits h.id) (alookup rule_caps h.id))
        (fun h : RuleHit => h.id == r) hits
      rw [heq]
      have hfeq : ∀ h ∈ hits.filter (fun h => h.id == r),
          (h.points : ℚ) *
            _rule_scale_factor (rule_points_total hits h.id) (alookup rule_caps h.id)
          = (fun h : RuleHit => (h.points : ℚ) * (cap / (|rule_points_total hits r| : ℚ))) h := by
        intro h hh
        have hid : h.id = r := by simpa using (List.mem_filter.mp hh).2
        rw [hid, hfac]
      rw [List.map_congr_left hfeq, List.sum_map_mul_right]
      rw [← int_cast_sum_map RuleHit.points]
      rw [show ((hits.filter (fun h => h.id == r)).map RuleHit.points).sum
            = rule_points_total hits r from rfl]
      have hTQ : ((rule_points_total hits r : ℤ) : ℚ) ≠ 0 := by
        exact_mod_cast hT
      rcases lt_trichotomy (rule_points_total hits r) 0 with hneg | h0 | hposT
      · rw [if_neg (by exact fun h => absurd (h.trans hneg) (lt_irrefl _))]
        have hTQneg : ((rule_points_total hits r : ℤ) : ℚ) < 0 := by
          exact_mod_cast hneg
        rw [abs_of_neg hTQneg, div_neg, mul_neg, mul_div_assoc',
          mul_div_cancel_left₀ _ hTQ]
      · exact absurd h0 hT
      · rw [if_pos hposT]
        have hTQpos : (0:ℚ) < ((rule_points_total hits r : ℤ) : ℚ) := by
          exact_mod_cast hposT
        rw [abs_of_pos hTQpos, mul_div_assoc', mul_div_cancel_left₀ _ hTQ]
  · intro hunder p hp hid
    rw [hzip] at hp
    obtain ⟨h, _, rfl⟩ := List.mem_map.mp hp
    simp only
    rw [hid, hcap]
    show (h.points : ℚ) *
      (if cap ≤ 0 ∨ rule_points_total hits r = 0 then (1:ℚ)
        else if (|rule_points_total hits r| : ℚ) ≤ cap then 1
        else cap / (|rule_points_total hits r| : ℚ)) = _
    by_cases h0 : rule_points_total hits r = 0
    · rw [if_pos (Or.inr h0), mul_one]
    · rw [if_neg (by rw [not_or]; exact ⟨not_le.mpr hpos, h0⟩), if_pos hunder, mul_one]

end DiffAI
namespace DiffAI

open Backend

/-- Witness for `c5_rule_precap`: "magnitude" hits of +16 and +14 under the
default rule cap of 20 are scaled to sum to exactly 20. -/
theorem c5_rule_precap_witness :
    ((([{ id := "magnitude", category := "integration", points := 16,
          scope := "global", message := "m1" : RuleHit},
        { id := "magnitude", category := "integration", points := 14,
          scope := "file", file_path := some "game/ui.py", message := "m2" : RuleHit}].zip
        (_adjusted_points_by_hit DEFAULT_RULE_CAPS
          [{ id := "magnitude", category := "integration", points := 16,
             scope := "global", message := "m1" : RuleHit},
           { id := "magnitude", category := "integration", points := 14,
             scope := "file", file_path := some "game/ui.py", message := "m2" : RuleHit}])).filter
        (fun p => p.1.id == "magnitude")).map Prod.snd).sum = 20 := by
  have h := (c5_rule_precap DEFAULT_RULE_CAPS
    [{ id := "magnitude", category := "integration", points := 16,
       scope := "global", message := "m1" : RuleHit},
     { id := "magnitude", category := "integration", points := 14,
       scope := "file", file_path := some "game/ui.py", message := "m2" : RuleHit}]
    "magnitude" 20 (by decide) (by decide)).1 (by decide)
  rw [h.2]
  decide

open Rules in
/-- C9: weight scaling rounds to the nearest integer but clamps a non-zero
finding away from zero (`+1` for positive points, `-1` for negative). -/
theorem c9_weight_scaling (w : ℚ) (findings : List Finding)
    (hw : ¬ |w - 1| ≤ weightTol) :
    weightedRuleEvaluate w findings =
      findings.map (fun f => { f with points := _scale_points f.points w }) ∧
    ∀ p : ℤ, p ≠ 0 →
      _scale_points p w ≠ 0 ∧
      (pyRound ((p : ℚ) * w) = 0 → 0 < p → _scale_points p w = 1) ∧
      (pyRound ((p : ℚ) * w) = 0 → p < 0 → _scale_points p w = -1) ∧
      (pyRound ((p : ℚ) * w) ≠ 0 → _scale_points p w = pyRound ((p : ℚ) * w)) := by
  constructor
  · unfold weightedRuleEvaluate
    rw [if_neg hw]
  · intro p hp
    unfold _scale_points
    by_cases h0 : pyRound ((p : ℚ) * w) = 0
    · rw [if_pos ⟨hp, h0⟩]
      by_cases hsign : 0 < p
      · rw [if_pos hsign]
        exact ⟨one_ne_zero, fun _ _ => rfl, fun _ hneg => absurd (hsign.trans hneg) (lt_irrefl 0),
          fun hne => absurd h0 hne⟩
      · rw [if_neg hsign]
        exact ⟨by decide, fun _ hpos => absurd hpos hsign, fun _ _ => rfl,
          fun hne => absurd h0 hne⟩
    · rw [if_neg (fun hc => h0 hc.2)]
      exact ⟨h0, fun hc => absurd hc h0, fun hc => absurd hc h0, fun _ => rfl⟩

open Rules in
/-- Witness for `c9_weight_scaling`: at weight 1/10, +2 rounds to 0 and is
clamped to +1; -2 is clamped to -1. -/
theorem c9_weight_scaling_witness :
    _scale_points 2 (1/10) = 1 ∧ _scale_points (-2) (1/10) = -1 := by
  have h := c9_weight_scaling (1/10) [] (by decide)
  exact ⟨(h.2 2 (by decide)).2.1 (by decide) (by decide),
    (h.2 (-2) (by decide)).2.2.1 (by decide) (by decide)⟩

open Scoring in
/-- C10: every per-file and per-hunk score in a `score_files` result is
clamped to the range 0..100. -/
theorem c10_file_hunk_scores_clamped (files : List Parser.FileDiff)
    (all_findings : List Rules.Finding)
    (rule_categories : List (String × String)) :
    ∀ fs ∈ (score_files files all_findings rule_categories).files,
      (0 ≤ fs.score ∧ fs.score ≤ 100) ∧
      ∀ hs ∈ fs.hunks, 0 ≤ hs.score ∧ hs.score ≤ 100 := by
  intro fs hfs
  have hfiles : (score_files files all_findings rule_categories).files
      = ((all_findings.foldl attributeFinding (_init_file_scores files)).map
          clampFileScore) := rfl
  rw [hfiles] at hfs
  obtain ⟨fs0, _, rfl⟩ := List.mem_map.mp hfs
  refine ⟨⟨le_max_left 0 _, max_le (by norm_num) (min_le_left 100 _)⟩, ?_⟩
  intro hs hhs
  have : (clampFileScore fs0).hunks = fs0.hunks.map
      (fun hs => { hs with score := _clamp hs.score }) := rfl
  rw [this] at hhs
  obtain ⟨hs0, _, rfl⟩ := List.mem_map.mp hhs
  exact ⟨le_max_left 0 _, max_le (by norm_num) (min_le_left 100 _)⟩

open Scoring in
/-- Witness for `c10_file_hunk_scores_clamped`: a +250 finding on one file is
clamped to a file score of 100. -/
theorem c10_file_hunk_scores_clamped_witness :
    (0 ≤ (⟨"x", 100, [], [⟨"r", 250, "m", "e", "file:x", "s"⟩]⟩ : FileScore).score ∧
      (⟨"x", 100, [], [⟨"r", 250, "m", "e", "file:x", "s"⟩]⟩ : FileScore).score ≤ 100) ∧
    ∀ hs ∈ (⟨"x", 100, [], [⟨"r", 250, "m", "e", "file:x", "s"⟩]⟩ : FileScore).hunks,
      0 ≤ hs.score ∧ hs.score ≤ 100 := by
  exact c10_file_hunk_scores_clamped
    [{ old_path := none, new_path := some "x" : Parser.FileDiff}]
    [⟨"r", 250, "m", "e", "file:x", "s"⟩] [] _ (by decide)

end DiffAI
namespace DiffAI

namespace Parser

theorem prefix_head {s p : String} {c : Char} {cs : List Char}
    (hp : p.data = c :: cs) (h : pyStartsWith s p = true) :
    ∃ t, s.data = c :: t := by
  unfold pyStartsWith at h
  rw [hp] at h
  cases hs : s.data with
  | nil => rw [hs] at h; simp [List.isPrefixOf] at h
  | cons b t =>
    rw [hs] at h
    simp only [List.isPrefixOf, Bool.and_eq_true, beq_iff_eq] at h
    exact ⟨t, by rw [h.1]⟩

theorem startsWith_false_of_head {s q : String} {c d : Char} {t cs : List Char}
    (hs : s.data = c :: t) (hq : q.data = d :: cs) (hne : d ≠ c) :
    pyStartsWith s q = false := by
  unfold pyStartsWith
  rw [hs, hq]
  simp [List.isPrefixOf, hne]

/-- C8 (amended): while a hunk is open, a line beginning with `-` but not
with `--- ` is recorded as a delete line at the current old cursor,
advancing only the old cursor and carrying no new-line number; a line
beginning with `--- ` (resp. `+++ `) sets `old_path` (resp. `new_path`)
wherever it occurs — even inside an open hunk, where the hunk and its
lines are left untouched — and is retained as metadata exactly when no
hunk is open. -/
theorem c8_dash_lines (st : ParserSt) (l : String) :
    (∀ h : Hunk, st.current_hunk = some h →
      pyStartsWith l "-" = true → pyStartsWith l "--- " = false →
      step st l = .ok { st with
        current_hunk := some { h with lines := h.lines ++
          [⟨"delete", strDropStr l 1, st.old_lineno, none⟩] },
        old_lineno := _inc st.old_lineno }) ∧
    (pyStartsWith l "--- " = true →
      (st.current_hunk = none →
        step st l = .ok { st with current_file := some {
          (st.current_file.getD ⟨none, none, [], []⟩) with
            old_path := some (_parse_path (strDropStr l 4)),
            metadata := (st.current_file.getD ⟨none, none, [], []⟩).metadata
              ++ [l] } }) ∧
      (∀ h : Hunk, st.current_hunk = some h →
        step st l = .ok { st with current_file := some {
          (st.current_file.getD ⟨none, none, [], []⟩) with
            old_path := some (_parse_path (strDropStr l 4)) } })) ∧
    (pyStartsWith l "+++ " = true →
      (st.current_hunk = none →
        step st l = .ok { st with current_file := some {
          (st.current_file.getD ⟨none, none, [], []⟩) with
            new_path := some (_parse_path (strDropStr l 4)),
            metadata := (st.current_file.getD ⟨none, none, [], []⟩).metadata
              ++ [l] } }) ∧
      (∀ h : Hunk, st.current_hunk = some h →
        step st l = .ok { st with current_file := some {
          (st.current_file.getD ⟨none, none, [], []⟩) with
            new_path := some (_parse_path (strDropStr l 4)) } })) := by
  refine ⟨?_, ?_, ?_⟩
  · intro h hh hdash hnot3
    obtain ⟨t, hl⟩ := prefix_head (by rfl) hdash
    unfold step
    rw [startsWith_false_of_head hl (by rfl) (by decide)]
    rw [hnot3]
    rw [startsWith_false_of_head hl (by rfl) (by decide)]
    rw [startsWith_false_of_head hl (by rfl) (by decide)]
    simp only [Bool.false_eq_true, if_false]
    rw [hh]
    rw [startsWith_false_of_head hl (by rfl) (by decide)]
    rw [startsWith_false_of_head hl (by rfl) (by decide)]
    rw [hdash]
    simp
  · intro h3
    obtain ⟨t, hl⟩ := prefix_head (by rfl) h3
    constructor
    · intro hnone
      unfold step
      rw [startsWith_false_of_head hl (by rfl) (by decide)]
      rw [h3]
      simp only [Bool.false_eq_true, if_false, if_true]
      have : st.current_hunk.isNone = true := by rw [hnone]; rfl
      rw [this]
      simp
    · intro h hh
      unfold step
      rw [startsWith_false_of_head hl (by rfl) (by decide)]
      rw [h3]
      simp only [Bool.false_eq_true, if_false, if_true]
      have : st.current_hunk.isNone = false := by rw [hh]; rfl
      rw [this]
      simp
  · intro h3
    obtain ⟨t, hl⟩ := prefix_head (by rfl) h3
    constructor
    · intro hnone
      unfold step
      rw [startsWith_false_of_head hl (by rfl) (by decide)]
      rw [startsWith_false_of_head hl (by rfl) (by decide)]
      rw [h3]
      simp only [Bool.false_eq_true, if_false, if_true]
      have : st.current_hunk.isNone = true := by rw [hnone]; rfl
      rw [this]
      simp
    · intro h hh
      unfold step
      rw [startsWith_false_of_head hl (by rfl) (by decide)]
      rw [startsWith_false_of_head hl (by rfl) (by decide)]
      rw [h3]
      simp only [Bool.false_eq_true, if_false, if_true]
      have : st.current_hunk.isNone = false := by rw [hh]; rfl
      rw [this]
      simp

/-- Counterexample for C8 as stated: inside an open hunk, the line
`--- b/x` begins with `-` but is not recorded as a delete line (the hunk
stays empty), and it sets `old_path` even though a hunk is open; likewise
`+++ b/y` inside an open hunk is not recorded as a hunk line and sets
`new_path` even though a hunk is open. -/
theorem c8_counterexample :
    parse_unified_diff ["@@ -1 +1 @@", "--- b/x"]
      = .ok [{ old_path := some "x", new_path := none,
               hunks := [⟨"@@ -1 +1 @@", 1, 1, 1, 1, "", []⟩], metadata := [] }] ∧
    pyStartsWith "--- b/x" "-" = true ∧
    parse_unified_diff ["@@ -1 +1 @@", "+++ b/y"]
      = .ok [{ old_path := none, new_path := some "y",
               hunks := [⟨"@@ -1 +1 @@", 1, 1, 1, 1, "", []⟩], metadata := [] }] := by
  exact ⟨by rfl, by decide, by rfl⟩

end Parser

end DiffAI
namespace DiffAI

namespace Parser

/-- Witness for `c8_dash_lines`: a delete line and `--- `/`+++ ` lines at
concrete open-hunk and no-hunk states. -/
theorem c8_dash_lines_witness :
    step ⟨[], none, some ⟨"@@ -4,2 +7,2 @@", 4, 2, 7, 2, "", []⟩, some 4, some 7⟩ "-gone"
      = .ok ⟨[], none, some ⟨"@@ -4,2 +7,2 @@", 4, 2, 7, 2, "",
          [⟨"delete", "gone", some 4, none⟩]⟩, some 5, some 7⟩ ∧
    step ⟨[], none, some ⟨"@@ -4,2 +7,2 @@", 4, 2, 7, 2, "", []⟩, some 4, some 7⟩ "--- b/x"
      = .ok ⟨[], some ⟨some "x", none, [], []⟩,
          some ⟨"@@ -4,2 +7,2 @@", 4, 2, 7, 2, "", []⟩, some 4, some 7⟩ ∧
    step ⟨[], none, none, none, none⟩ "--- b/x"
      = .ok ⟨[], some ⟨some "x", none, [], ["--- b/x"]⟩, none, none, none⟩ ∧
    step ⟨[], none, some ⟨"@@ -4,2 +7,2 @@", 4, 2, 7, 2, "", []⟩, some 4, some 7⟩ "+++ b/y"
      = .ok ⟨[], some ⟨none, some "y", [], []⟩,
          some ⟨"@@ -4,2 +7,2 @@", 4, 2, 7, 2, "", []⟩, some 4, some 7⟩ ∧
    step ⟨[], none, none, none, none⟩ "+++ b/y"
      = .ok ⟨[], some ⟨none, some "y", [], ["+++ b/y"]⟩, none, none, none⟩ := by
  have h1 := c8_dash_lines
    ⟨[], none, some ⟨"@@ -4,2 +7,2 @@", 4, 2, 7, 2, "", []⟩, some 4, some 7⟩ "-gone"
  have h2 := c8_dash_lines
    ⟨[], none, some ⟨"@@ -4,2 +7,2 @@", 4, 2, 7, 2, "", []⟩, some 4, some 7⟩ "--- b/x"
  have h3 := c8_dash_lines ⟨[], none, none, none, none⟩ "--- b/x"
  have h4 := c8_dash_lines
    ⟨[], none, some ⟨"@@ -4,2 +7,2 @@", 4, 2, 7, 2, "", []⟩, some 4, some 7⟩ "+++ b/y"
  have h5 := c8_dash_lines ⟨[], none, none, none, none⟩ "+++ b/y"
  exact ⟨h1.1 ⟨"@@ -4,2 +7,2 @@", 4, 2, 7, 2, "", []⟩ rfl (by decide) (by decide),
    (h2.2.1 (by decide)).2 ⟨"@@ -4,2 +7,2 @@", 4, 2, 7, 2, "", []⟩ rfl,
    (h3.2.1 (by decide)).1 rfl,
    (h4.2.2 (by decide)).2 ⟨"@@ -4,2 +7,2 @@", 4, 2, 7, 2, "", []⟩ rfl,
    (h5.2.2 (by decide)).1 rfl⟩

theorem dropLit_suffix : ∀ (p cs r : List Char), dropLit p cs = some r → r <:+ cs
  | [], cs, r, h => by
    simp only [dropLit, Option.some.injEq] at h
    rw [← h]
  | _ :: _, [], _, h => by simp [dropLit] at h
  | a :: ps, b :: cs, r, h => by
    unfold dropLit at h
    by_cases hab : a = b
    · rw [if_pos hab] at h
      exact (dropLit_suffix ps cs r h).trans (List.suffix_cons b cs)
    · rw [if_neg hab] at h
      exact absurd h (by simp)

theorem parseDigits_suffix (cs : List Char) (n : ℕ) (r : List Char)
    (h : parseDigits cs = some (n, r)) : r <:+ cs := by
  unfold parseDigits at h
  by_cases hd : (cs.takeWhile Char.isDigit).isEmpty
  · rw [if_pos hd] at h; exact absurd h (by simp)
  · rw [if_neg hd] at h
    simp only [Option.some.injEq, Prod.mk.injEq] at h
    rw [← h.2]
    exact List.dropWhile_suffix _

theorem parseOptCount_no_comma (cs : List Char) (hc : ',' ∉ cs) :
    parseOptCount cs = some (1, cs) := by
  unfold parseOptCount
  match cs, hc with
  | [], _ => rfl
  | c :: rest, hc =>
    have : c ≠ ',' := by
      intro h
      exact hc (h ▸ List.mem_cons_self c rest)
    cases c with
    | mk v h2 =>
      split
      · rename_i heq
        exact absurd (by rw [heq]; exact List.mem_cons_self _ _) hc
      · rfl

/-- Any line beginning with `@@ ` whose header does not parse makes the whole
parse fail (the `ValueError` propagates; no partial file list is returned). -/
theorem step_malformed_header (st : ParserSt) (l : String)
    (hat : pyStartsWith l "@@ " = true)
    (hbad : _parse_hunk_header l = none) :
    step st l = .error ("Invalid hunk header: " ++ l) := by
  obtain ⟨t, hl⟩ := prefix_head (by rfl) hat
  unfold step
  rw [startsWith_false_of_head hl (by rfl) (by decide)]
  rw [startsWith_false_of_head hl (by rfl) (by decide)]
  rw [startsWith_false_of_head hl (by rfl) (by decide)]
  rw [hat]
  simp only [Bool.false_eq_true, if_false, if_true]
  rw [hbad]

theorem runLines_error_of_malformed :
    ∀ (lines : List String) (st : ParserSt) (l : String), l ∈ lines →
      pyStartsWith l "@@ " = true → _parse_hunk_header l = none →
      ∃ e, runLines st lines = .error e
  | [], _, _, hmem, _, _ => absurd hmem (List.not_mem_nil _)
  | x :: xs, st, l, hmem, hat, hbad => by
    unfold runLines
    cases hstep : step st x with
    | error e => exact ⟨e, rfl⟩
    | ok st' =>
      rcases List.mem_cons.mp hmem with rfl | hmem'
      · rw [step_malformed_header st l hat hbad] at hstep
        exact absurd hstep (by simp)
      · exact runLines_error_of_malformed xs st' l hmem' hat hbad

/-- C3: a line beginning with `@@ ` that does not match the hunk-header
grammar aborts the whole parse with an error (no partial output), and a
well-formed header with both counts omitted (no comma anywhere in the line)
defaults both counts to 1. -/
theorem c3_malformed_and_default_counts :
    (∀ (lines : List String) (l : String), l ∈ lines →
      pyStartsWith l "@@ " = true → _parse_hunk_header l = none →
      ∃ e, parse_unified_diff lines = .error e) ∧
    (∀ (l : String) (hh : HunkHeader), _parse_hunk_header l = some hh →
      ',' ∉ l.data → hh.old_count = 1 ∧ hh.new_count = 1) := by
  constructor
  · intro lines l hmem hat hbad
    obtain ⟨e, he⟩ := runLines_error_of_malformed lines {} l hmem hat hbad
    refine ⟨e, ?_⟩
    unfold parse_unified_diff
    rw [he]
  · intro l hh hsome hnc
    unfold _parse_hunk_header at hsome
    split at hsome
    · exact absurd hsome (by simp)
    rename_i r1 h1
    split at hsome
    · exact absurd hsome (by simp)
    rename_i os r2 h2
    have hr2 : r2 <:+ l.data :=
      (parseDigits_suffix r1 os r2 h2).trans (dropLit_suffix _ _ _ h1)
    have hc2 : ',' ∉ r2 := fun hc => hnc (hr2.subset hc)
    split at hsome
    · exact absurd hsome (by simp)
    rename_i oc r2' h2'
    have hoc : oc = 1 ∧ r2' = r2 := by
      rw [parseOptCount_no_comma r2 hc2] at h2'
      exact ⟨(Prod.mk.inj (Option.some.inj h2')).1.symm,
        (Prod.mk.inj (Option.some.inj h2')).2.symm⟩
    split at hsome
    · exact absurd hsome (by simp)
    rename_i r3 h3
    split at hsome
    · exact absurd hsome (by simp)
    rename_i ns r4 h4
    have hr4 : r4 <:+ l.data := by
      refine ((parseDigits_suffix r3 ns r4 h4).trans
        ((dropLit_suffix _ _ _ h3).trans ?_)).trans hr2
      rw [hoc.2]
    have hc4 : ',' ∉ r4 := fun hc => hnc (hr4.subset hc)
    split at hsome
    · exact absurd hsome (by simp)
    rename_i nc r4' h4'
    have hnc1 : nc = 1 := by
      rw [parseOptCount_no_comma r4 hc4] at h4'
      exact (Prod.mk.inj (Option.some.inj h4')).1.symm
    split at hsome
    · exact absurd hsome (by simp)
    rename_i r5 h5
    have := Option.some.inj hsome
    rw [← this]
    exact ⟨hoc.1, hnc1⟩

/-- Witness for `c3_malformed_and_default_counts`: the malformed header
`@@ -x +1 @@` fails the parse, and `@@ -3 +7 @@` defaults both counts to 1. -/
theorem c3_malformed_and_default_counts_witness :
    (∃ e, parse_unified_diff ["@@ -x +1 @@"] = .error e) ∧
    ((⟨3, 1, 7, 1, ""⟩ : HunkHeader).old_count = 1 ∧
      (⟨3, 1, 7, 1, ""⟩ : HunkHeader).new_count = 1) := by
  constructor
  · exact c3_malformed_and_default_counts.1 ["@@ -x +1 @@"] "@@ -x +1 @@"
      (by decide) (by decide) (by decide)
  · exact c3_malformed_and_default_counts.2 "@@ -3 +7 @@" ⟨3, 1, 7, 1, ""⟩
      (by decide) (by decide)

end Parser

end DiffAI
namespace DiffAI

namespace Parser

theorem consecSome_snoc (s n : ℕ) :
    consecSome s n ++ [some (s + n)] = consecSome s (n + 1) := by
  unfold consecSome
  rw [List.range_succ, List.map_append]
  rfl

theorem stInv_empty : stInv {} := by
  refine ⟨?_, ?_, ?_⟩
  · intro fd hfd
    exact absurd hfd (List.not_mem_nil fd)
  · intro fd heq
    exact absurd heq (by simp)
  · intro h heq
    exact absurd heq (by simp)

theorem stInv_flushHunk (st : ParserSt) (hinv : stInv st) : stInv (flushHunk st) := by
  obtain ⟨h1, h2, h3⟩ := hinv
  unfold flushHunk
  split
  · rename_i x1 x2 f hk hf hh
    refine ⟨h1, ?_, fun h heq => absurd heq (by simp)⟩
    intro fd heq h hmem
    have hfd : fd = { f with hunks := f.hunks ++ [hk] } := (Option.some.inj heq).symm
    rw [hfd] at hmem
    simp only [List.mem_append, List.mem_singleton] at hmem
    rcases hmem with hold | heq2
    · exact h2 f hf h hold
    · rw [heq2]
      exact (h3 hk hh).1
  · rename_i hother
    exact ⟨h1, h2, fun h heq => absurd heq (by simp)⟩

theorem stInv_flushFile (st : ParserSt) (hinv : stInv st) : stInv (flushFile st) := by
  have hInner := stInv_flushHunk st hinv
  obtain ⟨h1, h2, h3⟩ := hInner
  unfold flushFile
  split
  · rename_i x1 f hf
    refine ⟨?_, fun fd heq => absurd heq (by simp), fun h heq => h3 h heq⟩
    intro fd hfd
    simp only [List.mem_append, List.mem_singleton] at hfd
    rcases hfd with hold | rfl
    · exact h1 fd hold
    · exact h2 fd hf
  · exact ⟨h1, h2, h3⟩

end Parser

end DiffAI
namespace DiffAI

namespace Parser

theorem oldAssigned_append (ls : List Line) (x : Line) :
    oldAssigned (ls ++ [x]) = oldAssigned ls ++
      (if x.kind == "context" || x.kind == "delete" then [x.old_lineno] else []) := by
  unfold oldAssigned
  rw [List.filter_append]
  by_cases hx : (x.kind == "context" || x.kind == "delete") = true
  · rw [if_pos hx]
    simp [List.filter, hx]
  · rw [if_neg hx]
    simp only [Bool.not_eq_true] at hx
    simp [List.filter, hx]

theorem newAssigned_append (ls : List Line) (x : Line) :
    newAssigned (ls ++ [x]) = newAssigned ls ++
      (if x.kind == "context" || x.kind == "add" then [x.new_lineno] else []) := by
  unfold newAssigned
  rw [List.filter_append]
  by_cases hx : (x.kind == "context" || x.kind == "add") = true
  · rw [if_pos hx]
    simp [List.filter, hx]
  · rw [if_neg hx]
    simp only [Bool.not_eq_true] at hx
    simp [List.filter, hx]

theorem oldCount_append (ls : List Line) (x : Line) :
    oldCount (ls ++ [x]) = oldCount ls +
      (if x.kind == "context" || x.kind == "delete" then 1 else 0) := by
  unfold oldCount
  rw [List.filter_append, List.length_append]
  by_cases hx : (x.kind == "context" || x.kind == "delete") = true
  · rw [if_pos hx]
    simp [List.filter, hx]
  · rw [if_neg hx]
    simp only [Bool.not_eq_true] at hx
    simp [List.filter, hx]

theorem newCount_append (ls : List Line) (x : Line) :
    newCount (ls ++ [x]) = newCount ls +
      (if x.kind == "context" || x.kind == "add" then 1 else 0) := by
  unfold newCount
  rw [List.filter_append, List.length_append]
  by_cases hx : (x.kind == "context" || x.kind == "add") = true
  · rw [if_pos hx]
    simp [List.filter, hx]
  · rw [if_neg hx]
    simp only [Bool.not_eq_true] at hx
    simp [List.filter, hx]

/-- Appending one diff line to an open hunk preserves the bookkeeping. -/
theorem hunkNumsOk_snoc (h : Hunk) (x : Line) (hok : hunkNumsOk h)
    (hold : st0 = some (h.old_start + oldCount h.lines))
    (hnew : st1 = some (h.new_start + newCount h.lines))
    (hxo : x.old_lineno = (if x.kind == "context" || x.kind == "delete" then st0 else x.old_lineno))
    (hxn : x.new_lineno = (if x.kind == "context" || x.kind == "add" then st1 else x.new_lineno)) :
    hunkNumsOk { h with lines := h.lines ++ [x] } := by
  constructor
  · show oldAssigned (h.lines ++ [x]) = consecSome h.old_start (oldCount (h.lines ++ [x]))
    rw [oldAssigned_append, oldCount_append]
    by_cases hx : (x.kind == "context" || x.kind == "delete") = true
    · rw [if_pos hx] at hxo ⊢
      rw [if_pos hx]
      rw [hxo, hold, hok.1, consecSome_snoc]
    · rw [if_neg hx] at hxo ⊢
      rw [if_neg hx]
      rw [List.append_nil, hok.1, Nat.add_zero]
  · show newAssigned (h.lines ++ [x]) = consecSome h.new_start (newCount (h.lines ++ [x]))
    rw [newAssigned_append, newCount_append]
    by_cases hx : (x.kind == "context" || x.kind == "add") = true
    · rw [if_pos hx] at hxn ⊢
      rw [if_pos hx]
      rw [hxn, hnew, hok.2, consecSome_snoc]
    · rw [if_neg hx] at hxn ⊢
      rw [if_neg hx]
      rw [List.append_nil, hok.2, Nat.add_zero]

end Parser

end DiffAI
namespace DiffAI

namespace Parser

theorem flushHunk_hunk_none (st : ParserSt) : (flushHunk st).current_hunk = none := by
  unfold flushHunk
  split <;> rfl

theorem flushFile_hunk_none (st : ParserSt) : (flushFile st).current_hunk = none := by
  unfold flushFile
  split
  · show (flushHunk st).current_hunk = none
    exact flushHunk_hunk_none st
  · exact flushHunk_hunk_none st

theorem stInv_updateFile (st : ParserSt) (f : FileDiff) (hinv : stInv st)
    (hf : ∀ h ∈ f.hunks, hunkNumsOk h) : stInv { st with current_file := some f } :=
  ⟨hinv.1, fun fd heq => by rw [← Option.some.inj heq]; exact hf, hinv.2.2⟩

theorem stInv_snocLine (st : ParserSt) (h : Hunk) (x : Line)
    (hh : st.current_hunk = some h) (hinv : stInv st)
    (hxo : x.old_lineno =
      (if x.kind == "context" || x.kind == "delete" then st.old_lineno else x.old_lineno))
    (hxn : x.new_lineno =
      (if x.kind == "context" || x.kind == "add" then st.new_lineno else x.new_lineno)) :
    stInv { st with
      current_hunk := some { h with lines := h.lines ++ [x] },
      old_lineno := (if x.kind == "context" || x.kind == "delete"
        then _inc st.old_lineno else st.old_lineno),
      new_lineno := (if x.kind == "context" || x.kind == "add"
        then _inc st.new_lineno else st.new_lineno) } := by
  obtain ⟨h1, h2, h3⟩ := hinv
  obtain ⟨hok, ho, hn⟩ := h3 h hh
  refine ⟨h1, h2, ?_⟩
  intro h' heq
  have hh' : h' = { h with lines := h.lines ++ [x] } := (Option.some.inj heq).symm
  subst hh'
  refine ⟨hunkNumsOk_snoc h x hok ho hn hxo hxn, ?_, ?_⟩
  · show (if x.kind == "context" || x.kind == "delete"
        then _inc st.old_lineno else st.old_lineno)
      = some (h.old_start + oldCount (h.lines ++ [x]))
    rw [oldCount_append]
    by_cases hx : (x.kind == "context" || x.kind == "delete") = true
    · rw [if_pos hx, if_pos hx, ho]
      show some (h.old_start + oldCount h.lines + 1) = _
      rw [Nat.add_assoc]
    · rw [if_neg hx, if_neg hx, ho, Nat.add_zero]
  · show (if x.kind == "context" || x.kind == "add"
        then _inc st.new_lineno else st.new_lineno)
      = some (h.new_start + newCount (h.lines ++ [x]))
    rw [newCount_append]
    by_cases hx : (x.kind == "context" || x.kind == "add") = true
    · rw [if_pos hx, if_pos hx, hn]
      show some (h.new_start + newCount h.lines + 1) = _
      rw [Nat.add_assoc]
    · rw [if_neg hx, if_neg hx, hn, Nat.add_zero]

theorem step_inv (st : ParserSt) (l : String) (hinv : stInv st) (st' : ParserSt)
    (hstep : step st l = .ok st') : stInv st' := by
  unfold step at hstep
  by_cases h1 : pyStartsWith l "diff --git " = true
  · rw [if_pos h1] at hstep
    rw [← Except.ok.inj hstep]
    refine ⟨(stInv_flushFile st hinv).1, ?_, ?_⟩
    · intro fd heq h hmem
      rw [← Option.some.inj heq] at hmem
      exact absurd hmem (by simp [_start_file_from_diff_header])
    · intro h heq
      rw [show ({ flushFile st with
          current_file := some (_start_file_from_diff_header l) } : ParserSt).current_hunk
        = (flushFile st).current_hunk from rfl, flushFile_hunk_none st] at heq
      exact absurd heq (by simp)
  · rw [if_neg h1] at hstep
    by_cases h2 : pyStartsWith l "--- " = true
    · rw [if_pos h2] at hstep
      rw [← Except.ok.inj hstep]
      refine stInv_updateFile st _ hinv ?_
      intro h hmem
      by_cases hnone : st.current_hunk.isNone = true
      · rw [if_pos hnone] at hmem
        cases hcf : st.current_file with
        | none => rw [hcf] at hmem; exact absurd hmem (by simp)
        | some f0 => rw [hcf] at hmem; exact hinv.2.1 f0 hcf h hmem
      · rw [if_neg hnone] at hmem
        cases hcf : st.current_file with
        | none => rw [hcf] at hmem; exact absurd hmem (by simp)
        | some f0 => rw [hcf] at hmem; exact hinv.2.1 f0 hcf h hmem
    · rw [if_neg h2] at hstep
      by_cases h3 : pyStartsWith l "+++ " = true
      · rw [if_pos h3] at hstep
        rw [← Except.ok.inj hstep]
        refine stInv_updateFile st _ hinv ?_
        intro h hmem
        by_cases hnone : st.current_hunk.isNone = true
        · rw [if_pos hnone] at hmem
          cases hcf : st.current_file with
          | none => rw [hcf] at hmem; exact absurd hmem (by simp)
          | some f0 => rw [hcf] at hmem; exact hinv.2.1 f0 hcf h hmem
        · rw [if_neg hnone] at hmem
          cases hcf : st.current_file with
          | none => rw [hcf] at hmem; exact absurd hmem (by simp)
          | some f0 => rw [hcf] at hmem; exact hinv.2.1 f0 hcf h hmem
      · rw [if_neg h3] at hstep
        by_cases h4 : pyStartsWith l "@@ " = true
        · rw [if_pos h4] at hstep
          have hst1 : stInv (if st.current_file.isNone
              then { st with current_file := some {} } else st) := by
            by_cases hcf : st.current_file.isNone = true
            · rw [if_pos hcf]
              exact stInv_updateFile st _ hinv (by intro h hmem; exact absurd hmem (by simp))
            · rw [if_neg hcf]
              exact hinv
          have hst2 := stInv_flushHunk _ hst1
          cases hph : _parse_hunk_header l with
          | none =>
            rw [hph] at hstep
            exact absurd hstep (by simp)
          | some p =>
            rw [hph] at hstep
            rw [← Except.ok.inj hstep]
            refine ⟨hst2.1, hst2.2.1, ?_⟩
            intro h heq
            have hh' : h = ⟨l, p.old_start, p.old_count, p.new_start, p.new_count,
                p.sectionText, []⟩ := (Option.some.inj heq).symm
            subst hh'
            exact ⟨⟨rfl, rfl⟩, rfl, rfl⟩
        · rw [if_neg h4] at hstep
          split at hstep
          · rename_i h hch
            by_cases h5 : pyStartsWith l " " = true
            · rw [if_pos h5] at hstep
              rw [← Except.ok.inj hstep]
              exact stInv_snocLine st h _ hch hinv rfl rfl
            · rw [if_neg h5] at hstep
              by_cases h6 : pyStartsWith l "+" = true
              · rw [if_pos h6] at hstep
                rw [← Except.ok.inj hstep]
                exact stInv_snocLine st h _ hch hinv rfl rfl
              · rw [if_neg h6] at hstep
                by_cases h7 : pyStartsWith l "-" = true
                · rw [if_pos h7] at hstep
                  rw [← Except.ok.inj hstep]
                  exact stInv_snocLine st h _ hch hinv rfl rfl
                · rw [if_neg h7] at hstep
                  by_cases h8 : pyStartsWith l "\\ " = true
                  · rw [if_pos h8] at hstep
                    rw [← Except.ok.inj hstep]
                    exact stInv_snocLine st h _ hch hinv rfl rfl
                  · rw [if_neg h8] at hstep
                    rw [← Except.ok.inj hstep]
                    exact stInv_snocLine st h _ hch hinv rfl rfl
          · rename_i hch
            split at hstep
            · rename_i f hcf
              rw [← Except.ok.inj hstep]
              refine stInv_updateFile st _ hinv ?_
              intro h hmem
              exact hinv.2.1 f hcf h hmem
            · rw [← Except.ok.inj hstep]
              exact hinv

end Parser

end DiffAI
namespace DiffAI

namespace Parser

theorem runLines_inv : ∀ (lines : List String) (st : ParserSt), stInv st →
    ∀ st', runLines st lines = .ok st' → stInv st'
  | [], st, hinv, st', h => by
    rw [← Except.ok.inj h]
    exact hinv
  | x :: xs, st, hinv, st', h => by
    unfold runLines at h
    cases hstep : step st x with
    | error e => rw [hstep] at h; exact absurd h (by simp)
    | ok st1 =>
      rw [hstep] at h
      exact runLines_inv xs st1 (step_inv st x hinv st1 hstep) st' h

/-- C2: in every hunk produced by a successful parse, the old-line numbers of
its context/delete lines are exactly `old_start, old_start+1, ...` and the
new-line numbers of its context/add lines are exactly
`new_start, new_start+1, ...`, in encounter order (so the cursors never
decrement). -/
theorem c2_line_number_bookkeeping (lines : List String) (fds : List FileDiff)
    (hparse : parse_unified_diff lines = .ok fds) :
    ∀ fd ∈ fds, ∀ h ∈ fd.hunks,
      oldAssigned h.lines = consecSome h.old_start (oldCount h.lines) ∧
      newAssigned h.lines = consecSome h.new_start (newCount h.lines) := by
  unfold parse_unified_diff at hparse
  cases hrun : runLines {} lines with
  | error e => rw [hrun] at hparse; exact absurd hparse (by simp)
  | ok st =>
    rw [hrun] at hparse
    have hinv := stInv_flushFile st (runLines_inv lines {} stInv_empty st hrun)
    intro fd hfd h hmem
    rw [← Except.ok.inj hparse] at hfd
    exact hinv.1 fd hfd h hmem

/-- Witness for `c2_line_number_bookkeeping` on a concrete two-sided hunk. -/
theorem c2_line_number_bookkeeping_witness :
    oldAssigned [⟨"context", "a", some 3, some 7⟩, ⟨"delete", "b", some 4, none⟩,
        ⟨"add", "c", none, some 8⟩, ⟨"context", "d", some 5, some 9⟩]
      = consecSome 3 (oldCount [⟨"context", "a", some 3, some 7⟩,
          ⟨"delete", "b", some 4, none⟩, ⟨"add", "c", none, some 8⟩,
          ⟨"context", "d", some 5, some 9⟩]) ∧
    newAssigned [⟨"context", "a", some 3, some 7⟩, ⟨"delete", "b", some 4, none⟩,
        ⟨"add", "c", none, some 8⟩, ⟨"context", "d", some 5, some 9⟩]
      = consecSome 7 (newCount [⟨"context", "a", some 3, some 7⟩,
          ⟨"delete", "b", some 4, none⟩, ⟨"add", "c", none, some 8⟩,
          ⟨"context", "d", some 5, some 9⟩]) := by
  exact c2_line_number_bookkeeping
    ["@@ -3,2 +7,2 @@", " a", "-b", "+c", " d"]
    [⟨none, none,
      [⟨"@@ -3,2 +7,2 @@", 3, 2, 7, 2, "",
        [⟨"context", "a", some 3, some 7⟩, ⟨"delete", "b", some 4, none⟩,
         ⟨"add", "c", none, some 8⟩, ⟨"context", "d", some 5, some 9⟩]⟩], []⟩]
    (by rfl)
    ⟨none, none,
      [⟨"@@ -3,2 +7,2 @@", 3, 2, 7, 2, "",
        [⟨"context", "a", some 3, some 7⟩, ⟨"delete", "b", some 4, none⟩,
         ⟨"add", "c", none, some 8⟩, ⟨"context", "d", some 5, some 9⟩]⟩], []⟩
    (by decide)
    ⟨"@@ -3,2 +7,2 @@", 3, 2, 7, 2, "",
      [⟨"context", "a", some 3, some 7⟩, ⟨"delete", "b", some 4, none⟩,
       ⟨"add", "c", none, some 8⟩, ⟨"context", "d", some 5, some 9⟩]⟩
    (by decide)

end Parser

end DiffAI
namespace DiffAI

theorem pyRoundR_ge_floor (x : ℝ) : ⌊x⌋ ≤ pyRoundR x := by
  unfold pyRoundR
  split_ifs <;> omega

theorem pyRoundR_le_floor_add_one (x : ℝ) : pyRoundR x ≤ ⌊x⌋ + 1 := by
  unfold pyRoundR
  split_ifs <;> omega

theorem pyRoundR_mono : Monotone pyRoundR := by
  intro x y hxy
  rcases lt_or_eq_of_le (Int.floor_mono hxy) with hlt | hf
  · calc pyRoundR x ≤ ⌊x⌋ + 1 := pyRoundR_le_floor_add_one x
      _ ≤ ⌊y⌋ := by omega
      _ ≤ pyRoundR y := pyRoundR_ge_floor y
  · by_cases hx1 : x - ⌊x⌋ < 1/2
    · calc pyRoundR x = ⌊x⌋ := by unfold pyRoundR; rw [if_pos hx1]
        _ = ⌊y⌋ := hf
        _ ≤ pyRoundR y := pyRoundR_ge_floor y
    · have hxyf : x - (⌊x⌋ : ℝ) ≤ y - (⌊y⌋ : ℝ) := by
        rw [← hf]
        linarith
      have hy1 : ¬ (y - ⌊y⌋ < 1/2) := fun hy => hx1 (lt_of_le_of_lt hxyf hy)
      unfold pyRoundR
      rw [if_neg hx1, if_neg hy1]
      by_cases hx2 : 1/2 < x - ⌊x⌋
      · have hy2 : 1/2 < y - ⌊y⌋ := lt_of_lt_of_le hx2 hxyf
        rw [if_pos hx2, if_pos hy2, hf]
      · rw [if_neg hx2]
        by_cases hy2 : 1/2 < y - ⌊y⌋
        · rw [if_pos hy2]
          split_ifs <;> omega
        · rw [if_neg hy2, hf]

namespace Backend

/-- C6: the diminishing-returns transform `100 * (1 - e^(-raw/scale))` is
strictly increasing in the raw weighted total, strictly below 100, has
strictly decreasing marginal score over equally spaced totals, and its
rounded clamped integer form is monotone. -/
theorem c6_diminishing_returns (scale : ℝ) (hs : 0 < scale) :
    StrictMono (transform scale) ∧
    (∀ raw : ℝ, transform scale raw < 100) ∧
    (∀ a b c : ℝ, a < b → b < c → b - a = c - b →
      transform scale c - transform scale b < transform scale b - transform scale a) ∧
    Monotone (fun raw => pyRoundR (_clamp (transform scale raw) 0 100)) := by
  have hmono : StrictMono (transform scale) := by
    intro x y hxy
    unfold transform
    have hdiv : x / scale < y / scale := by gcongr
    have hexp : Real.exp (-(y / scale)) < Real.exp (-(x / scale)) :=
      Real.exp_lt_exp.mpr (by linarith)
    linarith
  refine ⟨hmono, ?_, ?_, ?_⟩
  · intro raw
    unfold transform
    have := Real.exp_pos (-(raw / scale))
    linarith
  · intro a b c hab hbc heq
    have hd : 0 < b - a := sub_pos.mpr hab
    have e_b : Real.exp (-(b / scale))
        = Real.exp (-(a / scale)) * Real.exp (-((b - a) / scale)) := by
      rw [← Real.exp_add]
      congr 1
      field_simp
      ring
    have e_c : Real.exp (-(c / scale))
        = Real.exp (-(b / scale)) * Real.exp (-((b - a) / scale)) := by
      rw [← Real.exp_add]
      congr 1
      have hc2 : c = b + (b - a) := by linarith
      rw [hc2]
      field_simp
      ring
    have hEa := Real.exp_pos (-(a / scale))
    have hEd1 : Real.exp (-((b - a) / scale)) < 1 := by
      rw [Real.exp_lt_one_iff]
      have : 0 < (b - a) / scale := div_pos hd hs
      linarith
    have hEd0 := Real.exp_pos (-((b - a) / scale))
    unfold transform
    rw [e_c, e_b]
    nlinarith [mul_pos (mul_pos hEa (sub_pos.mpr hEd1)) (sub_pos.mpr hEd1)]
  · intro x y hxy
    exact pyRoundR_mono (by
      unfold _clamp
      exact max_le_max (le_refl 0) (min_le_min (le_refl 100) (hmono.monotone hxy)))

/-- Witness for `c6_diminishing_returns` at the default scale 36. -/
theorem c6_diminishing_returns_witness :
    transform 36 5 < 100 ∧
    transform 36 24 - transform 36 12 < transform 36 12 - transform 36 0 := by
  have h := c6_diminishing_returns 36 (by norm_num)
  exact ⟨h.2.1 5, h.2.2.1 0 12 24 (by norm_num) (by norm_num) (by norm_num)⟩

end Backend

end DiffAI
namespace DiffAI

namespace Backend

theorem clamp01_bounds (v : ℝ) : 0 ≤ _clamp v 0 100 ∧ _clamp v 0 100 ≤ 100 := by
  unfold _clamp
  constructor
  · exact le_max_left 0 _
  · exact max_le (by norm_num) (min_le_left 100 v)

theorem pyRoundR_mem_0_100 (v : ℝ) (h0 : 0 ≤ v) (h1 : v ≤ 100) :
    0 ≤ pyRoundR v ∧ pyRoundR v ≤ 100 := by
  constructor
  · have : (0:ℤ) ≤ ⌊v⌋ := Int.floor_nonneg.mpr h0
    exact this.trans (pyRoundR_ge_floor v)
  · have hfl : ⌊v⌋ ≤ 100 := by
      have := Int.floor_mono h1
      rwa [show ⌊(100:ℝ)⌋ = 100 by norm_num] at this
    rcases lt_or_eq_of_le hfl with hlt | heq
    · have := pyRoundR_le_floor_add_one v
      omega
    · have hge : (100:ℝ) ≤ v := by
        have hh := Int.floor_le v
        rw [heq] at hh
        push_cast at hh
        exact hh
      have hv : v = 100 := le_antisymm h1 hge
      unfold pyRoundR
      rw [if_pos (by rw [heq, hv]; norm_num)]
      omega

/-- C7 (amended): for every hit list on a valid positive scale, the
transformed score is strictly below 100 (and within 0..100 whenever the
weighted capped total is nonnegative — but it can be negative for
negative-point hits), the final score is an integer within 0..100, and the
reason list length is at most top_n. -/
theorem c7_breakdown_ranges (cfg : ScoreConfig) (hits : List RuleHit)
    (b : ScoreBreakdown) (hb : score_rule_hits cfg hits = some b) :
    b.transformed_score < 100 ∧
    (0 ≤ overall_raw cfg hits →
      0 ≤ b.transformed_score ∧ b.transformed_score ≤ 100) ∧
    (0 ≤ b.final_score_0_100 ∧ b.final_score_0_100 ≤ 100) ∧
    b.reasons_topN.length ≤ cfg.top_n.toNat := by
  unfold score_rule_hits at hb
  by_cases hscale : cfg.scale ≤ 0
  · rw [if_pos hscale] at hb
    exact absurd hb (by simp)
  · rw [if_neg hscale] at hb
    have hspos : (0:ℝ) < (cfg.scale : ℝ) := by
      exact_mod_cast lt_of_not_le hscale
    have hbdef : b = score_breakdown cfg hits := (Option.some.inj hb).symm
    subst hbdef
    have htr : (score_breakdown cfg hits).transformed_score
        = transform (cfg.scale : ℝ) ((overall_raw cfg hits : ℚ) : ℝ) := rfl
    refine ⟨?_, ?_, ?_, ?_⟩
    · rw [htr]
      unfold transform
      have := Real.exp_pos (-(((overall_raw cfg hits : ℚ) : ℝ) / (cfg.scale : ℝ)))
      linarith
    · intro hnn
      rw [htr]
      unfold transform
      have hnnR : (0:ℝ) ≤ ((overall_raw cfg hits : ℚ) : ℝ) := by exact_mod_cast hnn
      have harg : -(((overall_raw cfg hits : ℚ) : ℝ) / (cfg.scale : ℝ)) ≤ 0 := by
        have : 0 ≤ ((overall_raw cfg hits : ℚ) : ℝ) / (cfg.scale : ℝ) :=
          div_nonneg hnnR (le_of_lt hspos)
        linarith
      have hexple : Real.exp (-(((overall_raw cfg hits : ℚ) : ℝ) / (cfg.scale : ℝ))) ≤ 1 :=
        Real.exp_le_one_iff.mpr harg
      have hexppos := Real.exp_pos (-(((overall_raw cfg hits : ℚ) : ℝ) / (cfg.scale : ℝ)))
      constructor
      · linarith
      · linarith
    · have hfin : (score_breakdown cfg hits).final_score_0_100
          = pyRoundR (_clamp (transformed_score cfg hits) 0 100) := rfl
      rw [hfin]
      obtain ⟨hc0, hc1⟩ := clamp01_bounds (transformed_score cfg hits)
      exact pyRoundR_mem_0_100 _ hc0 hc1
    · have hrs : (score_breakdown cfg hits).reasons_topN
          = _build_top_reasons cfg hits := rfl
      rw [hrs]
      unfold _build_top_reasons
      by_cases htn : cfg.top_n ≤ 0
      · rw [if_pos htn]
        simp
      · rw [if_neg htn]
        simp only [List.length_map]
        exact List.length_take_le _ _

/-- Counterexample for C7 as stated: a single -10 "security" hit makes the
`transformed_score` negative (the stored transformed score is not clamped),
so it is not within 0..100. -/
theorem c7_counterexample :
    (score_rule_hits defaultConfig
        [{ id := "r", category := "security", points := -10, scope := "global" }]).map
      ScoreBreakdown.transformed_score
      = some (transformed_score defaultConfig
          [{ id := "r", category := "security", points := -10, scope := "global" }]) ∧
    transformed_score defaultConfig
        [{ id := "r", category := "security", points := -10, scope := "global" }] < 0 := by
  constructor
  · rfl
  · have hov : overall_raw defaultConfig
        [{ id := "r", category := "security", points := -10, scope := "global" }] = -14 := by
      decide
    unfold transformed_score
    rw [hov]
    unfold transform
    have h1 : (1:ℝ) < Real.exp (-((((-14 : ℚ) : ℝ)) / ((defaultConfig.scale : ℚ) : ℝ))) := by
      rw [Real.one_lt_exp_iff]
      have hsc : ((defaultConfig.scale : ℚ) : ℝ) = 36 := by norm_num [defaultConfig, DEFAULT_SCALE]
      rw [hsc]
      norm_num
    linarith
end Backend

end DiffAI
namespace DiffAI

namespace Backend

/-- Witness for `c7_breakdown_ranges` on a single +10 "security" hit. -/
theorem c7_breakdown_ranges_witness :
    (score_breakdown defaultConfig
        [{ id := "r", category := "security", points := 10,
           scope := "global" }]).transformed_score < 100 ∧
    (0 ≤ (score_breakdown defaultConfig
        [{ id := "r", category := "security", points := 10,
           scope := "global" }]).transformed_score ∧
      (score_breakdown defaultConfig
        [{ id := "r", category := "security", points := 10,
           scope := "global" }]).transformed_score ≤ 100) ∧
    (0 ≤ (score_breakdown defaultConfig
        [{ id := "r", category := "security", points := 10,
           scope := "global" }]).final_score_0_100 ∧
      (score_breakdown defaultConfig
        [{ id := "r", category := "security", points := 10,
           scope := "global" }]).final_score_0_100 ≤ 100) ∧
    (score_breakdown defaultConfig
        [{ id := "r", category := "security", points := 10,
           scope := "global" }]).reasons_topN.length ≤ (5:ℤ).toNat := by
  have h := c7_breakdown_ranges defaultConfig
    [{ id := "r", category := "security", points := 10, scope := "global" }]
    (score_breakdown defaultConfig
      [{ id := "r", category := "security", points := 10, scope := "global" }])
    (by rfl)
  exact ⟨h.1, h.2.1 (by decide), h.2.2.1, h.2.2.2⟩

end Backend

end DiffAI

namespace DiffAI

theorem charsLt_asymm : ∀ (a b : List Char), charsLt a b = true → charsLt b a = false
  | [], [], h => by simp [charsLt] at h
  | [], _ :: _, _ => by simp [charsLt]
  | _ :: _, [], h => by simp [charsLt] at h
  | x :: xs, y :: ys, h => by
    unfold charsLt at h ⊢
    rcases lt_trichotomy x y with hxy | hxy | hxy
    · rw [if_neg (lt_asymm hxy), if_pos hxy]
    · subst hxy
      rw [if_neg (lt_irrefl x)] at h ⊢
      rw [if_neg (lt_irrefl x)] at h ⊢
      exact charsLt_asymm xs ys h
    · rw [if_neg (lt_asymm hxy), if_pos hxy] at h
      exact absurd h (by simp)

theorem charsLt_trans : ∀ (a b c : List Char),
    charsLt a b = true → charsLt b c = true → charsLt a c = true
  | [], b, [], h1, h2 => by
    cases b with
    | nil => simp [charsLt] at h1
    | cons y ys => simp [charsLt] at h2
  | [], _, _ :: _, _, _ => by simp [charsLt]
  | x :: xs, [], c, h1, _ => by simp [charsLt] at h1
  | x :: xs, y :: ys, [], _, h2 => by simp [charsLt] at h2
  | x :: xs, y :: ys, z :: zs, h1, h2 => by
    unfold charsLt at h1 h2 ⊢
    rcases lt_trichotomy x y with hxy | hxy | hxy
    · rcases lt_trichotomy y z with hyz | hyz | hyz
      · rw [if_pos (lt_trans hxy hyz)]
      · subst hyz
        rw [if_pos hxy]
      · rw [if_neg (lt_asymm hyz), if_pos hyz] at h2
        exact absurd h2 (by simp)
    · subst hxy
      rcases lt_trichotomy x z with hxz | hxz | hxz
      · rw [if_pos hxz]
      · subst hxz
        rw [if_neg (lt_irrefl x)] at h1 h2 ⊢
        rw [if_neg (lt_irrefl x)] at h1 h2 ⊢
        exact charsLt_trans xs ys zs h1 h2
      · rw [if_neg (lt_asymm hxz), if_pos hxz] at h2
        exact absurd h2 (by simp)
    · rw [if_neg (lt_asymm hxy), if_pos hxy] at h1
      exact absurd h1 (by simp)

theorem charsLt_conn : ∀ (a b : List Char),
    charsLt a b = false → charsLt b a = false → a = b
  | [], [], _, _ => rfl
  | [], _ :: _, h1, _ => by simp [charsLt] at h1
  | _ :: _, [], _, h2 => by simp [charsLt] at h2
  | x :: xs, y :: ys, h1, h2 => by
    unfold charsLt at h1 h2
    rcases lt_trichotomy x y with hxy | hxy | hxy
    · rw [if_pos hxy] at h1
      exact absurd h1 (by simp)
    · subst hxy
      rw [if_neg (lt_irrefl x)] at h1 h2
      rw [if_neg (lt_irrefl x)] at h1 h2
      rw [charsLt_conn xs ys h1 h2]
    · rw [if_pos hxy] at h2
      exact absurd h2 (by simp)

end DiffAI

namespace DiffAI

namespace Backend

theorem lexComp_asymm (a g r r' : Bool) (hexcl : ¬(a = true ∧ g = true))
    (hr : r = true → r' = false) :
    lexComp a g r = true → lexComp g a r' = false := by
  cases a <;> cases g <;> simp_all [lexComp]

theorem lexComp_trans (a1 g1 r1 a2 g2 r2 a3 g3 r3 : Bool)
    (hx1 : ¬(a1 = true ∧ g1 = true)) (hx2 : ¬(a2 = true ∧ g2 = true))
    (h1 : a1 = true → a2 = true → a3 = true)
    (h2 : a1 = true → a2 = false → g2 = false → a3 = true)
    (h3 : a1 = false → g1 = false → a2 = true → a3 = true)
    (h4 : a1 = false → g1 = false → a2 = false → g2 = false →
      a3 = false ∧ g3 = false ∧ (r1 = true → r2 = true → r3 = true)) :
    lexComp a1 g1 r1 = true → lexComp a2 g2 r2 = true → lexComp a3 g3 r3 = true := by
  cases a1 <;> cases g1 <;> cases a2 <;> cases g2 <;>
    simp_all [lexComp]

theorem lexComp_conn (a g r r' : Bool) :
    lexComp a g r = false → lexComp g a r' = false →
    a = false ∧ g = false ∧ r = false ∧ r' = false := by
  cases a <;> cases g <;> simp_all [lexComp]

theorem rankLt_asymm (x y : RankKey) (h : rankLt x y = true) : rankLt y x = false := by
  unfold rankLt at h ⊢
  refine lexComp_asymm _ _ _ _ ?_ ?_ h
  · intro hc
    rw [decide_eq_true_eq] at hc
    rw [decide_eq_true_eq] at hc
    exact absurd hc.2 (lt_asymm hc.1)
  · intro hrest
    refine lexComp_asymm _ _ _ _ ?_ ?_ hrest
    · intro hc
      rw [decide_eq_true_eq] at hc
      rw [decide_eq_true_eq] at hc
      exact absurd hc.2 (lt_asymm hc.1)
    · intro hrest2
      refine lexComp_asymm _ _ _ _ ?_ ?_ hrest2
      · intro hc
        have := charsLt_asymm _ _ hc.1
        rw [this] at hc
        exact absurd hc.2 (by simp)
      · intro hrest3
        refine lexComp_asymm _ _ _ _ ?_ ?_ hrest3
        · intro hc
          have := charsLt_asymm _ _ hc.1
          rw [this] at hc
          exact absurd hc.2 (by simp)
        · intro hid
          rw [decide_eq_true_eq] at hid
          rw [decide_eq_false_iff_not]
          exact lt_asymm hid

theorem rankLt_conn (x y : RankKey) (h1 : rankLt x y = false)
    (h2 : rankLt y x = false) : x = y := by
  unfold rankLt at h1 h2
  obtain ⟨hc1, hc2, hr1, hr2⟩ := lexComp_conn _ _ _ _ h1 h2
  rw [decide_eq_false_iff_not] at hc1 hc2
  have hcon : x.contribution = y.contribution := le_antisymm (not_lt.mp hc2) (not_lt.mp hc1)
  obtain ⟨ha1, ha2, hs1, hs2⟩ := lexComp_conn _ _ _ _ hr1 hr2
  rw [decide_eq_false_iff_not] at ha1 ha2
  have habs : x.absAdj = y.absAdj := le_antisymm (not_lt.mp ha2) (not_lt.mp ha1)
  obtain ⟨hb1, hb2, ht1, ht2⟩ := lexComp_conn _ _ _ _ hs1 hs2
  have hrid : x.rid = y.rid := charsLt_conn _ _ hb1 hb2
  obtain ⟨hd1, hd2, hu1, hu2⟩ := lexComp_conn _ _ _ _ ht1 ht2
  have hfp : x.fpath = y.fpath := charsLt_conn _ _ hd1 hd2
  rw [decide_eq_false_iff_not] at hu1 hu2
  have hhid : x.hid = y.hid := le_antisymm (not_lt.mp hu2) (not_lt.mp hu1)
  cases x
  cases y
  simp_all

theorem rankLt_trans (x y z : RankKey) (hxy : rankLt x y = true)
    (hyz : rankLt y z = true) : rankLt x z = true := by
  unfold rankLt at hxy hyz ⊢
  refine lexComp_trans _ _ _ _ _ _ _ _ _ ?_ ?_ ?_ ?_ ?_ ?_ hxy hyz
  · intro hc
    rw [decide_eq_true_eq] at hc
    rw [decide_eq_true_eq] at hc
    exact absurd hc.2 (lt_asymm hc.1)
  · intro hc
    rw [decide_eq_true_eq] at hc
    rw [decide_eq_true_eq] at hc
    exact absurd hc.2 (lt_asymm hc.1)
  · intro ha hb
    rw [decide_eq_true_eq] at ha hb ⊢
    exact lt_trans ha hb
  · intro ha hb hg
    rw [decide_eq_true_eq] at ha ⊢
    rw [decide_eq_false_iff_not] at hb hg
    have : y.contribution = z.contribution := le_antisymm (not_lt.mp hg) (not_lt.mp hb)
    rw [← this]
    exact ha
  · intro ha hg hb
    rw [decide_eq_true_eq] at hb ⊢
    rw [decide_eq_false_iff_not] at ha hg
    have : x.contribution = y.contribution := le_antisymm (not_lt.mp hg) (not_lt.mp ha)
    rw [this]
    exact hb
  · intro ha hg hb hg2
    rw [decide_eq_false_iff_not] at ha hg hb hg2
    have hcxy : x.contribution = y.contribution := le_antisymm (not_lt.mp hg) (not_lt.mp ha)
    have hcyz : y.contribution = z.contribution := le_antisymm (not_lt.mp hg2) (not_lt.mp hb)
    refine ⟨?_, ?_, ?_⟩
    · rw [decide_eq_false_iff_not]
      rw [hcxy, hcyz]
      exact lt_irrefl _
    · rw [decide_eq_false_iff_not]
      rw [hcxy, hcyz]
      exact lt_irrefl _
    · intro hr1 hr2
      refine lexComp_trans _ _ _ _ _ _ _ _ _ ?_ ?_ ?_ ?_ ?_ ?_ hr1 hr2
      · intro hc
        rw [decide_eq_true_eq] at hc
        rw [decide_eq_true_eq] at hc
        exact absurd hc.2 (lt_asymm hc.1)
      · intro hc
        rw [decide_eq_true_eq] at hc
        rw [decide_eq_true_eq] at hc
        exact absurd hc.2 (lt_asymm hc.1)
      · intro ha2 hb2
        rw [decide_eq_true_eq] at ha2 hb2 ⊢
        exact lt_trans ha2 hb2
      · intro ha2 hb2 hg2b
        rw [decide_eq_true_eq] at ha2 ⊢
        rw [decide_eq_false_iff_not] at hb2 hg2b
        have : y.absAdj = z.absAdj := le_antisymm (not_lt.mp hg2b) (not_lt.mp hb2)
        rw [← this]
        exact ha2
      · intro ha2 hg2b hb2
        rw [decide_eq_true_eq] at hb2 ⊢
        rw [decide_eq_false_iff_not] at ha2 hg2b
        have : x.absAdj = y.absAdj := le_antisymm (not_lt.mp hg2b) (not_lt.mp ha2)
        rw [this]
        exact hb2
      · intro ha2 hg2b hb2 hg2c
        rw [decide_eq_false_iff_not] at ha2 hg2b hb2 hg2c
        have haxy : x.absAdj = y.absAdj := le_antisymm (not_lt.mp hg2b) (not_lt.mp ha2)
        have hayz : y.absAdj = z.absAdj := le_antisymm (not_lt.mp hg2c) (not_lt.mp hb2)
        refine ⟨?_, ?_, ?_⟩
        · rw [decide_eq_false_iff_not, haxy, hayz]
          exact lt_irrefl _
        · rw [decide_eq_false_iff_not, haxy, hayz]
          exact lt_irrefl _
        · intro hs1 hs2
          refine lexComp_trans _ _ _ _ _ _ _ _ _ ?_ ?_ ?_ ?_ ?_ ?_ hs1 hs2
          · intro hc
            have := charsLt_asymm _ _ hc.1
            rw [this] at hc
            exact absurd hc.2 (by simp)
          · intro hc
            have := charsLt_asymm _ _ hc.1
            rw [this] at hc
            exact absurd hc.2 (by simp)
          · intro ha3 hb3
            exact charsLt_trans _ _ _ ha3 hb3
          · intro ha3 hb3 hg3
            rw [charsLt_conn _ _ hb3 hg3] at ha3
            exact ha3
          · intro ha3 hg3 hb3
            rw [← charsLt_conn _ _ ha3 hg3] at hb3
            exact hb3
          · intro ha3 hg3 hb3 hg3b
            have hrxy : x.rid = y.rid := charsLt_conn _ _ ha3 hg3
            have hryz : y.rid = z.rid := charsLt_conn _ _ hb3 hg3b
            refine ⟨?_, ?_, ?_⟩
            · rw [hrxy, hryz]
              cases h : charsLt z.rid z.rid
              · rfl
              · exact absurd (charsLt_asymm _ _ h) (by rw [h]; simp)
            · rw [hrxy, hryz]
              cases h : charsLt z.rid z.rid
              · rfl
              · exact absurd (charsLt_asymm _ _ h) (by rw [h]; simp)
            · intro ht1 ht2
              refine lexComp_trans _ _ _ _ _ _ _ _ _ ?_ ?_ ?_ ?_ ?_ ?_ ht1 ht2
              · intro hc
                have := charsLt_asymm _ _ hc.1
                rw [this] at hc
                exact absurd hc.2 (by simp)
              · intro hc
                have := charsLt_asymm _ _ hc.1
                rw [this] at hc
                exact absurd hc.2 (by simp)
              · intro ha4 hb4
                exact charsLt_trans _ _ _ ha4 hb4
              · intro ha4 hb4 hg4
                rw [charsLt_conn _ _ hb4 hg4] at ha4
                exact ha4
              · intro ha4 hg4 hb4
                rw [← charsLt_conn _ _ ha4 hg4] at hb4
                exact hb4
              · intro ha4 hg4 hb4 hg4b
                have hfxy : x.fpath = y.fpath := charsLt_conn _ _ ha4 hg4
                have hfyz : y.fpath = z.fpath := charsLt_conn _ _ hb4 hg4b
                refine ⟨?_, ?_, ?_⟩
                · rw [hfxy, hfyz]
                  cases h : charsLt z.fpath z.fpath
                  · rfl
                  · exact absurd (charsLt_asymm _ _ h) (by rw [h]; simp)
                · rw [hfxy, hfyz]
                  cases h : charsLt z.fpath z.fpath
                  · rfl
                  · exact absurd (charsLt_asymm _ _ h) (by rw [h]; simp)
                · intro hu1 hu2
                  rw [decide_eq_true_eq] at hu1 hu2 ⊢
                  exact lt_trans hu1 hu2

end Backend

end DiffAI

namespace DiffAI

section SortLemmas

variable {α : Type} {κ : Type} (lt : α → α → Bool)

theorem insertStable_perm (x : α) (l : List α) :
    (insertStable lt x l).Perm (x :: l) := by
  induction l with
  | nil => exact List.Perm.refl _
  | cons y ys ih =>
    unfold insertStable
    by_cases h : lt y x = true
    · rw [if_pos h]
    · rw [if_neg h]
      exact (ih.cons y).trans (List.Perm.swap x y ys)

theorem sortDescBy_fold_perm (l : List α) : ∀ acc : List α,
    (l.foldl (fun acc x => insertStable lt x acc) acc).Perm (acc ++ l) := by
  induction l with
  | nil => intro acc; simp
  | cons x xs ih =>
    intro acc
    rw [List.foldl_cons]
    refine (ih (insertStable lt x acc)).trans ?_
    refine (((insertStable_perm lt x acc).append_right xs).trans ?_)
    exact List.perm_middle.symm

theorem sortDescBy_perm (l : List α) : (sortDescBy lt l).Perm l := by
  unfold sortDescBy
  simpa using sortDescBy_fold_perm lt l []

theorem pairwise_insertStable
    (hasym : ∀ a b, lt a b = true → lt b a = false)
    (htrans : ∀ a b c, lt a b = true → lt b c = true → lt a c = true)
    (x : α) (l : List α)
    (hl : l.Pairwise (fun a b => lt a b = false)) :
    (insertStable lt x l).Pairwise (fun a b => lt a b = false) := by
  induction l with
  | nil => simp [insertStable]
  | cons y ys ih =>
    obtain ⟨hy, hys⟩ := List.pairwise_cons.mp hl
    unfold insertStable
    by_cases h : lt y x = true
    · rw [if_pos h]
      refine List.pairwise_cons.mpr ⟨?_, hl⟩
      intro z hz
      rcases List.mem_cons.mp hz with rfl | hz'
      · exact hasym _ x h
      · cases h2 : lt x z
        · rfl
        · have h4 := htrans y x z h h2
          rw [hy z hz'] at h4
          exact absurd h4 (by simp)
    · rw [if_neg h]
      refine List.pairwise_cons.mpr ⟨?_, ih hys⟩
      intro z hz
      have hz2 := (insertStable_perm lt x ys).mem_iff.mp hz
      rcases List.mem_cons.mp hz2 with rfl | hz'
      · cases h3 : lt y z
        · rfl
        · exact absurd h3 h
      · exact hy z hz'

theorem pairwise_sortDescBy
    (hasym : ∀ a b, lt a b = true → lt b a = false)
    (htrans : ∀ a b c, lt a b = true → lt b c = true → lt a c = true)
    (l : List α) :
    (sortDescBy lt l).Pairwise (fun a b => lt a b = false) := by
  unfold sortDescBy
  have aux : ∀ (l2 : List α) (acc : List α),
      acc.Pairwise (fun a b => lt a b = false) →
      (l2.foldl (fun acc x => insertStable lt x acc) acc).Pairwise
        (fun a b => lt a b = false) := by
    intro l2
    induction l2 with
    | nil => intro acc hacc; exact hacc
    | cons x xs ih =>
      intro acc hacc
      rw [List.foldl_cons]
      exact ih _ (pairwise_insertStable lt hasym htrans x acc hacc)
  exact aux l [] (List.Pairwise.nil)

theorem sortDescBy_eq_of_perm (key : α → κ)
    (hasym : ∀ a b, lt a b = true → lt b a = false)
    (htrans : ∀ a b c, lt a b = true → lt b c = true → lt a c = true)
    (hconn : ∀ a b, lt a b = false → lt b a = false → key a = key b)
    (l l' : List α) (hperm : l.Perm l') (hnd : (l.map key).Nodup) :
    sortDescBy lt l = sortDescBy lt l' := by
  have hp1 := sortDescBy_perm lt l
  have hp2 := sortDescBy_perm lt l'
  have hperm12 : (sortDescBy lt l).Perm (sortDescBy lt l') :=
    hp1.trans (hperm.trans hp2.symm)
  have hsymm : ∀ {a b : α}, key a ≠ key b → key b ≠ key a :=
    fun h h2 => h h2.symm
  have hndl : l.Pairwise (fun a b => key a ≠ key b) := List.pairwise_map.mp hnd
  have hnd1 : (sortDescBy lt l).Pairwise (fun a b => key a ≠ key b) :=
    (hp1.pairwise_iff fun h => hsymm h).mpr hndl
  have hnd2 : (sortDescBy lt l').Pairwise (fun a b => key a ≠ key b) :=
    (hp2.pairwise_iff fun h => hsymm h).mpr ((hperm.pairwise_iff fun h => hsymm h).mp hndl)
  have hstrict : ∀ m : List α, m.Pairwise (fun a b => lt a b = false) →
      m.Pairwise (fun a b => key a ≠ key b) →
      m.Pairwise (fun a b => lt b a = true) := by
    intro m hm hk
    refine (hm.and hk).imp ?_
    intro a b hab
    cases h2 : lt b a
    · exact absurd (hconn a b hab.1 h2) hab.2
    · rfl
  haveI : IsAntisymm α (fun a b => lt b a = true) :=
    ⟨fun a b h1 h2 => absurd (hasym b a h1) (by rw [h2]; simp)⟩
  exact List.eq_of_perm_of_sorted hperm12
    (hstrict _ (pairwise_sortDescBy lt hasym htrans l) hnd1)
    (hstrict _ (pairwise_sortDescBy lt hasym htrans l') hnd2)

end SortLemmas

end DiffAI

namespace DiffAI

namespace Backend

theorem rule_points_total_perm (hits hits' : List RuleHit)
    (hperm : hits'.Perm hits) (r : String) :
    rule_points_total hits' r = rule_points_total hits r :=
  ((hperm.filter _).map _).sum_eq

theorem abump_comm {α : Type} [AddCommMonoid α] (acc : List (String × α))
    (k1 k2 : String) (v1 v2 : α) :
    abump (abump acc k1 v1) k2 v2 = abump (abump acc k2 v2) k1 v1 := by
  induction acc with
  | nil => rfl
  | cons p rest ih =>
    obtain ⟨k, v⟩ := p
    by_cases h1 : k = k1
    · by_cases h2 : k = k2
      · subst h1
        subst h2
        simp [abump, add_right_comm]
      · subst h1
        simp [abump, h2]
    · by_cases h2 : k = k2
      · subst h2
        simp [abump, h1]
      · simp [abump, h1, h2, ih]

theorem fold_abump_perm {α β : Type} [AddCommMonoid α]
    (f : β → String) (g : β → α) (l l' : List β) (hp : l.Perm l')
    (init : List (String × α)) :
    l.foldl (fun acc x => abump acc (f x) (g x)) init
      = l'.foldl (fun acc x => abump acc (f x) (g x)) init := by
  refine hp.foldl_eq' ?_ init
  intro x _ y _ z
  exact abump_comm z (f x) (f y) (g x) (g y)

theorem adjF_perm (cfg : ScoreConfig) (hits hits' : List RuleHit)
    (hperm : hits'.Perm hits) (h : RuleHit) :
    (h.points : ℚ) * _rule_scale_factor (rule_points_total hits' h.id)
        (alookup cfg.rule_caps h.id)
      = (h.points : ℚ) * _rule_scale_factor (rule_points_total hits h.id)
        (alookup cfg.rule_caps h.id) := by
  rw [rule_points_total_perm hits hits' hperm]

theorem raw_fold_perm (cfg : ScoreConfig) (hits hits' : List RuleHit)
    (hperm : hits'.Perm hits) :
    raw_points_by_category_fold cfg hits' = raw_points_by_category_fold cfg hits := by
  unfold raw_points_by_category_fold
  exact fold_abump_perm _ _ hits' hits hperm _



end Backend

end DiffAI

namespace DiffAI

namespace Backend

theorem scored_fold_eq_map_fold (cfg : ScoreConfig) (hits : List RuleHit) :
    scored_points_by_category_fold cfg hits
      = (hits.map (fun h => (h, (h.points : ℚ) *
          _rule_scale_factor (rule_points_total hits h.id)
            (alookup cfg.rule_caps h.id)))).foldl
          (fun acc (p : RuleHit × ℚ) =>
            abump acc (normalize_category (active_caps cfg) p.1.category) p.2)
          ((ordered_categories cfg).map (fun c => (c, 0))) := by
  unfold scored_points_by_category_fold _adjusted_points_by_hit
  rw [zip_map_self]

theorem scored_fold_perm (cfg : ScoreConfig) (hits hits' : List RuleHit)
    (hperm : hits'.Perm hits) :
    scored_points_by_category_fold cfg hits'
      = scored_points_by_category_fold cfg hits := by
  rw [scored_fold_eq_map_fold, scored_fold_eq_map_fold]
  rw [List.map_congr_left (fun h _ => by
    rw [rule_points_total_perm hits hits' hperm h.id] :
      ∀ h ∈ hits', _ = (h, (h.points : ℚ) *
        _rule_scale_factor (rule_points_total hits h.id) (alookup cfg.rule_caps h.id)))]
  exact fold_abump_perm (fun (p : RuleHit × ℚ) =>
      normalize_category (active_caps cfg) p.1.category)
    Prod.snd _ _ (hperm.map _) _

theorem capped_perm (cfg : ScoreConfig) (hits hits' : List RuleHit)
    (hperm : hits'.Perm hits) :
    capped_points_by_category cfg hits' = capped_points_by_category cfg hits := by
  unfold capped_points_by_category
  rw [scored_fold_perm cfg hits hits' hperm]

theorem overall_raw_perm (cfg : ScoreConfig) (hits hits' : List RuleHit)
    (hperm : hits'.Perm hits) :
    overall_raw cfg hits' = overall_raw cfg hits := by
  unfold overall_raw
  rw [capped_perm cfg hits hits' hperm]

theorem ranked_entries_eq_map (cfg : ScoreConfig) (hits : List RuleHit) :
    ranked_entries cfg hits = hits.map (fun h =>
      (weightOf cfg (normalize_category (active_caps cfg) h.category) *
        ((h.points : ℚ) * _rule_scale_factor (rule_points_total hits h.id)
          (alookup cfg.rule_caps h.id)),
       (h.points : ℚ) * _rule_scale_factor (rule_points_total hits h.id)
          (alookup cfg.rule_caps h.id),
       h,
       normalize_category (active_caps cfg) h.category)) := by
  unfold ranked_entries _adjusted_points_by_hit
  rw [zip_map_self, List.map_map]
  rfl

theorem ranked_entries_perm (cfg : ScoreConfig) (hits hits' : List RuleHit)
    (hperm : hits'.Perm hits) :
    (ranked_entries cfg hits').Perm (ranked_entries cfg hits) := by
  rw [ranked_entries_eq_map, ranked_entries_eq_map]
  rw [List.map_congr_left (fun h _ => by
    rw [rule_points_total_perm hits hits' hperm h.id] :
      ∀ h ∈ hits', _ = (weightOf cfg (normalize_category (active_caps cfg) h.category) *
        ((h.points : ℚ) * _rule_scale_factor (rule_points_total hits h.id)
          (alookup cfg.rule_caps h.id)),
       (h.points : ℚ) * _rule_scale_factor (rule_points_total hits h.id)
          (alookup cfg.rule_caps h.id),
       h,
       normalize_category (active_caps cfg) h.category))]
  exact hperm.map _

theorem reasons_perm (cfg : ScoreConfig) (hits hits' : List RuleHit)
    (hperm : hits'.Perm hits)
    (hnd : ((ranked_entries cfg hits).map rank_key).Nodup) :
    _build_top_reasons cfg hits' = _build_top_reasons cfg hits := by
  unfold _build_top_reasons
  by_cases htn : cfg.top_n ≤ 0
  · rw [if_pos htn, if_pos htn]
  · rw [if_neg htn, if_neg htn]
    show ((sortDescBy entry_lt
        (if ((ranked_entries cfg hits').filter (fun e => decide (0 < e.1))).isEmpty
          then ranked_entries cfg hits'
          else (ranked_entries cfg hits').filter
            (fun e => decide (0 < e.1)))).take cfg.top_n.toNat).map reason_string
      = ((sortDescBy entry_lt
        (if ((ranked_entries cfg hits).filter (fun e => decide (0 < e.1))).isEmpty
          then ranked_entries cfg hits
          else (ranked_entries cfg hits).filter
            (fun e => decide (0 < e.1)))).take cfg.top_n.toNat).map reason_string
    have hrp := ranked_entries_perm cfg hits hits' hperm
    have hpp : ((ranked_entries cfg hits').filter (fun e => decide (0 < e.1))).Perm
        ((ranked_entries cfg hits).filter (fun e => decide (0 < e.1))) :=
      hrp.filter _
    have hasymE : ∀ a b : ℚ × ℚ × RuleHit × String,
        entry_lt a b = true → entry_lt b a = false :=
      fun a b h => rankLt_asymm _ _ h
    have htransE : ∀ a b c : ℚ × ℚ × RuleHit × String,
        entry_lt a b = true → entry_lt b c = true → entry_lt a c = true :=
      fun a b c h1 h2 => rankLt_trans _ _ _ h1 h2
    have hconnE : ∀ a b : ℚ × ℚ × RuleHit × String,
        entry_lt a b = false → entry_lt b a = false → rank_key a = rank_key b :=
      fun a b h1 h2 => rankLt_conn _ _ h1 h2
    by_cases hz : (ranked_entries cfg hits).filter (fun e => decide (0 < e.1)) = []
    · have hz' : (ranked_entries cfg hits').filter (fun e => decide (0 < e.1)) = [] := by
        rw [hz] at hpp
        exact hpp.eq_nil
      rw [hz, hz']
      simp only [List.isEmpty_nil, if_true]
      rw [sortDescBy_eq_of_perm entry_lt rank_key hasymE htransE hconnE
        (ranked_entries cfg hits') (ranked_entries cfg hits) hrp
        (((hrp.map rank_key).nodup_iff).mpr hnd)]
    · have hz' : (ranked_entries cfg hits').filter (fun e => decide (0 < e.1)) ≠ [] := by
        intro hc
        rw [hc] at hpp
        exact hz hpp.symm.eq_nil
      have hie : ((ranked_entries cfg hits).filter
          (fun e => decide (0 < e.1))).isEmpty = false := by
        cases hcase : (ranked_entries cfg hits).filter (fun e => decide (0 < e.1))
        · exact absurd hcase hz
        · rfl
      have hie' : ((ranked_entries cfg hits').filter
          (fun e => decide (0 < e.1))).isEmpty = false := by
        cases hcase : (ranked_entries cfg hits').filter (fun e => decide (0 < e.1))
        · exact absurd hcase hz'
        · rfl
      rw [hie, hie']
      simp only [Bool.false_eq_true, if_false]
      have hndp : (((ranked_entries cfg hits).filter
          (fun e => decide (0 < e.1))).map rank_key).Nodup :=
        hnd.sublist ((List.filter_sublist (ranked_entries cfg hits)).map rank_key)
      rw [sortDescBy_eq_of_perm entry_lt rank_key hasymE htransE hconnE
        _ _ hpp (((hpp.map rank_key).nodup_iff).mpr hndp)]

end Backend

end DiffAI

namespace DiffAI

namespace Backend

theorem raw_total_perm (hits hits' : List RuleHit)
    (hperm : hits'.Perm hits) :
    raw_points_total hits' = raw_points_total hits :=
  (hperm.map RuleHit.points).sum_eq

theorem transformed_perm (cfg : ScoreConfig) (hits hits' : List RuleHit)
    (hperm : hits'.Perm hits) :
    transformed_score cfg hits' = transformed_score cfg hits := by
  unfold transformed_score
  rw [overall_raw_perm cfg hits hits' hperm]

theorem final_perm (cfg : ScoreConfig) (hits hits' : List RuleHit)
    (hperm : hits'.Perm hits) :
    final_score_0_100 cfg hits' = final_score_0_100 cfg hits := by
  unfold final_score_0_100
  rw [transformed_perm cfg hits hits' hperm]

theorem score_breakdown_perm (cfg : ScoreConfig) (hits hits' : List RuleHit)
    (hperm : hits'.Perm hits)
    (hnd : ((ranked_entries cfg hits).map rank_key).Nodup) :
    score_breakdown cfg hits' = score_breakdown cfg hits := by
  unfold score_breakdown
  rw [raw_total_perm hits hits' hperm, raw_fold_perm cfg hits hits' hperm,
    capped_perm cfg hits hits' hperm, transformed_perm cfg hits hits' hperm,
    final_perm cfg hits hits' hperm, reasons_perm cfg hits hits' hperm hnd]

theorem score_rule_hits_perm (cfg : ScoreConfig) (hits hits' : List RuleHit)
    (hperm : hits'.Perm hits)
    (hnd : ((ranked_entries cfg hits).map rank_key).Nodup) :
    score_rule_hits cfg hits' = score_rule_hits cfg hits := by
  unfold score_rule_hits
  rw [score_breakdown_perm cfg hits hits' hperm hnd]

/-- C1: permuting the hit list never changes the numeric fields of the
breakdown (raw total, per-category raws, capped totals, transformed score,
final score); and when the ranked entries have pairwise-distinct sort keys,
`score_rule_hits` returns an identical `ScoreBreakdown`, reasons text
included. (The unrestricted claim is refuted by `c1_counterexample`:
two hits equal except for their message tie the sort key, so the stable
sort preserves their input order and the reasons text changes.) -/
theorem c1_permutation_determinism (cfg : ScoreConfig) (hits hits' : List RuleHit)
    (hperm : hits'.Perm hits) :
    (raw_points_total hits' = raw_points_total hits ∧
     raw_points_by_category_fold cfg hits' = raw_points_by_category_fold cfg hits ∧
     capped_points_by_category cfg hits' = capped_points_by_category cfg hits ∧
     transformed_score cfg hits' = transformed_score cfg hits ∧
     final_score_0_100 cfg hits' = final_score_0_100 cfg hits) ∧
    (((ranked_entries cfg hits).map rank_key).Nodup →
      score_rule_hits cfg hits' = score_rule_hits cfg hits) :=
  ⟨⟨raw_total_perm hits hits' hperm, raw_fold_perm cfg hits hits' hperm,
    capped_perm cfg hits hits' hperm, transformed_perm cfg hits hits' hperm,
    final_perm cfg hits hits' hperm⟩,
   fun hnd => score_rule_hits_perm cfg hits hits' hperm hnd⟩

/-- C1 counterexample: swapping two hits that agree on every sort-key field
but differ in message changes the `reasons_topN` text of the breakdown
returned by `score_rule_hits` under the default configuration. -/
theorem c1_counterexample :
    ([cxHitB, cxHitA].Perm [cxHitA, cxHitB]) ∧
    (score_rule_hits defaultConfig [cxHitB, cxHitA]).map ScoreBreakdown.reasons_topN ≠
      (score_rule_hits defaultConfig [cxHitA, cxHitB]).map ScoreBreakdown.reasons_topN := by
  constructor
  · exact List.Perm.swap _ _ _
  · have e1 : score_rule_hits defaultConfig [cxHitB, cxHitA]
        = some (score_breakdown defaultConfig [cxHitB, cxHitA]) := by
      unfold score_rule_hits
      rw [if_neg (by decide : ¬ defaultConfig.scale ≤ 0)]
    have e2 : score_rule_hits defaultConfig [cxHitA, cxHitB]
        = some (score_breakdown defaultConfig [cxHitA, cxHitB]) := by
      unfold score_rule_hits
      rw [if_neg (by decide : ¬ defaultConfig.scale ≤ 0)]
    rw [e1, e2]
    intro h
    exact absurd (Option.some.inj h :
        _build_top_reasons defaultConfig [cxHitB, cxHitA]
          = _build_top_reasons defaultConfig [cxHitA, cxHitB])
      (by decide)

/-- C1 witness: the permutation theorem applied to two concrete hit lists
with distinct sort keys. -/
theorem c1_permutation_determinism_witness :
    ([wHitB, wHitA].Perm [wHitA, wHitB]) ∧
    ((raw_points_total [wHitB, wHitA] = raw_points_total [wHitA, wHitB] ∧
      raw_points_by_category_fold defaultConfig [wHitB, wHitA]
        = raw_points_by_category_fold defaultConfig [wHitA, wHitB] ∧
      capped_points_by_category defaultConfig [wHitB, wHitA]
        = capped_points_by_category defaultConfig [wHitA, wHitB] ∧
      transformed_score defaultConfig [wHitB, wHitA]
        = transformed_score defaultConfig [wHitA, wHitB] ∧
      final_score_0_100 defaultConfig [wHitB, wHitA]
        = final_score_0_100 defaultConfig [wHitA, wHitB]) ∧
     (((ranked_entries defaultConfig [wHitA, wHitB]).map rank_key).Nodup →
       score_rule_hits defaultConfig [wHitB, wHitA]
         = score_rule_hits defaultConfig [wHitA, wHitB])) :=
  ⟨by decide,
   c1_permutation_determinism defaultConfig [wHitA, wHitB] [wHitB, wHitA] (by decide)⟩

end Backend

end DiffAI
